import Mathlib

/-!
# gonhk: a client of the NHK program guide API

A shallow embedding of `src/nhk.go` and proofs about it.

The program is "format a URL, fetch, decode JSON, map errors".  Its own code is
embedded function by function (`ProgramList`, `ProgramGenre`, `ProgramInfo`,
`NowOnAir`, `NewClient`, `getNhkList`, `getNhkDescriptionList`,
`getNhkNowOnAirList`, `decoder`, `apiError`) and its type declarations are
embedded as type descriptors (`NhkList`, `NhkProgram`, ...).

The Go standard library it calls is modelled as follows.

* `fmt.Sprintf`: an interpreter of the format string (`Sprintf`).
* `net/http`: a `World` holding the answer of the network to every URL and the
  log of the URLs requested so far.
* `encoding/json`: the scanner is not modelled; a buffered body is represented
  by what the scanner reads as its first JSON value (`Bytes.scanned`).  The
  reflection driven store of a JSON value into a Go value is `unmarshal`, a
  function of the type descriptor, the current Go value and the JSON value.
* what depends on the platform or on other packages (`strings.EqualFold`,
  `time.Time.UnmarshalJSON`, the size of `int`) is a parameter, `Lib`.
* a run time fault (nil pointer dereference) is the outcome `Run.panic`.
-/

namespace Gonhk

/-! ## Go values -/

/-- A failure of the JSON scanner: no value at all, a value cut short, or text
that is not JSON. -/
inductive ScanError
  | eof
  | unexpectedEOF
  | invalid (msg : String)
  deriving DecidableEq, Repr

/-- Go `error` values that flow through the client. -/
inductive GoError
  /-- the value of `errors.New(text)` -/
  | errorString (text : String)
  /-- a failure of `http.Get` or of `ioutil.ReadAll` -/
  | transport (text : String)
  /-- a failure of the JSON scanner, returned by `Decode` -/
  | scan (e : ScanError)
  /-- `*json.UnmarshalTypeError`: JSON `value` does not fit Go type `type` -/
  | unmarshalType (value : String) (type : String)
  /-- a failure returned by an `UnmarshalJSON` method -/
  | unmarshaler (text : String)
  deriving DecidableEq, Repr

/-- `errors.New`. -/
def errors.New (text : String) : GoError := GoError.errorString text

/-- The `Error()` method. -/
def GoError.Error : GoError → String
  | .errorString text => text
  | .transport text => text
  | .scan .eof => "EOF"
  | .scan .unexpectedEOF => "unexpected EOF"
  | .scan (.invalid msg) => msg
  | .unmarshalType value type =>
      "json: cannot unmarshal " ++ value ++ " into Go value of type " ++ type
  | .unmarshaler text => text

/-- Errors that come from decoding JSON, as opposed to `errors.New` values and
transport failures. -/
def GoError.isDecodeError : GoError → Bool
  | .scan _ => true
  | .unmarshalType _ _ => true
  | .unmarshaler _ => true
  | _ => false

/-- The outcome of running Go code: it returns, or it faults. -/
inductive Run (α : Type)
  | ret (a : α)
  | panic (msg : String)

/-- The run time fault of reading a field through a nil pointer. -/
def nilDereference : String :=
  "runtime error: invalid memory address or nil pointer dereference"

/-- A JSON number literal: an integer literal, or a literal with a fraction or
an exponent part (kept as text). -/
inductive Number
  | integer (i : Int)
  | fractional (lit : String)
  deriving DecidableEq, Repr

/-- A JSON value, as read by the scanner. -/
inductive JSON
  | null
  | bool (b : Bool)
  | num (n : Number)
  | str (s : String)
  | arr (xs : List JSON)
  | obj (ms : List (String × JSON))

/-- A `time.Time` value. -/
structure Time where
  unixNano : Int
  zoneOffset : Int
  deriving DecidableEq, Repr

/-- The zero `time.Time`: January 1, year 1, 00:00:00 UTC. -/
def Time.zero : Time := ⟨-62135596800000000000, 0⟩

mutual
/-- Descriptors of the Go types that occur in the program. -/
inductive GoType
  | string
  | int
  | time
  | ptr (elem : GoType)
  | slice (elem : GoType)
  /-- `map[string]elem` -/
  | map (elem : GoType)
  | struct (name : String) (fields : Fields)
/-- The fields of a struct type: Go name, JSON tag, type. -/
inductive Fields
  | nil
  | cons (name : String) (tag : String) (type : GoType) (rest : Fields)
end

/-- Go values.  `nil` is the nil pointer, the nil slice and the nil map; `slice`
and `map` are the non-nil ones, possibly empty. -/
inductive GoVal
  | str (s : String)
  | int (i : Int)
  | time (t : Time)
  | nil
  | ptr (v : GoVal)
  | slice (xs : List GoVal)
  | map (kvs : List (String × GoVal))
  | struct (fs : List (String × GoVal))

mutual
/-- The zero value of a type. -/
def zero : GoType → GoVal
  | .string => .str ""
  | .int => .int 0
  | .time => .time Time.zero
  | .ptr _ => .nil
  | .slice _ => .nil
  | .map _ => .nil
  | .struct _ fs => .struct (zeroFields fs)
/-- The zero values of the fields of a struct. -/
def zeroFields : Fields → List (String × GoVal)
  | .nil => []
  | .cons n _ t rest => (n, zero t) :: zeroFields rest
end

/-- The name of a type as `reflect` prints it. -/
def typeName : GoType → String
  | .string => "string"
  | .int => "int"
  | .time => "time.Time"
  | .ptr t => "*" ++ typeName t
  | .slice t => "[]" ++ typeName t
  | .map t => "map[string]" ++ typeName t
  | .struct n _ => "gonhk." ++ n

/-- `v.f`, the field `f` of a struct value. -/
def GoVal.field (v : GoVal) (f : String) : GoVal :=
  match v with
  | .struct fs => (fs.lookup f).getD .nil
  | _ => .nil

/-- `m[k]` in its two-valued form `v, prs := m[k]`: `none` when the key is not
present, which is always so for the nil map. -/
def GoVal.index (m : GoVal) (k : String) : Option GoVal :=
  match m with
  | .map kvs => kvs.lookup k
  | _ => none

/-- `len(v)` for maps and slices; the nil map and the nil slice have length 0. -/
def GoVal.len : GoVal → Nat
  | .slice xs => xs.length
  | .map kvs => kvs.length
  | _ => 0

/-- Store `v` under key `k` of a map, replacing the entry if there is one. -/
def mapSet : List (String × GoVal) → String → GoVal → List (String × GoVal)
  | [], k, v => [(k, v)]
  | (k', v') :: rest, k, v =>
      if k' = k then (k, v) :: rest else (k', v') :: mapSet rest k v

/-- Store `v` in field `f` of a struct. -/
def setField (fs : List (String × GoVal)) (f : String) (v : GoVal) :
    List (String × GoVal) :=
  fs.map (fun p => if p.1 == f then (f, v) else p)

/-! ## fmt.Sprintf -/

/-- An operand of `Sprintf`.  The program formats strings and ints only. -/
inductive Arg
  | str (s : String)
  | int (i : Int)

/-- The decimal text of an integer, as `%d` prints it. -/
def formatInt (i : Int) : String :=
  if i < 0 then "-" ++ Nat.repr i.natAbs else Nat.repr i.natAbs

/-- The `type=value` text that `fmt` prints for an operand it cannot format. -/
def Arg.describe : Arg → String
  | .str s => "string=" ++ s
  | .int i => "int=" ++ formatInt i

/-- One verb applied to one operand: `%s` and `%v` print a string verbatim, `%d`
and `%v` print an int in decimal; anything else is reported the way `fmt`
reports a verb that does not fit its operand.  The format strings of the
program use `%s` on strings and `%d` on ints only. -/
def formatVerb (verb : Char) (a : Arg) : List Char :=
  match a with
  | .str s =>
      if verb = 's' ∨ verb = 'v' then s.data
      else '%' :: '!' :: verb :: '(' :: ((Arg.str s).describe.data ++ [')'])
  | .int i =>
      if verb = 'd' ∨ verb = 'v' then (formatInt i).data
      else '%' :: '!' :: verb :: '(' :: ((Arg.int i).describe.data ++ [')'])

/-- What `fmt` appends for operands that no verb consumed. -/
def formatExtra : List Arg → List Char
  | [] => []
  | a :: as => ("%!(EXTRA " ++ ", ".intercalate ((a :: as).map Arg.describe) ++ ")").data

/-- The interpreter of a format string over its operands. -/
def format : List Char → List Arg → List Char
  | [], args => formatExtra args
  | c :: rest, args =>
      if c = '%' then
        match rest with
        | [] => "%!(NOVERB)".data ++ formatExtra args
        | verb :: rest' =>
            if verb = '%' then '%' :: format rest' args
            else
              match args with
              | [] => '%' :: '!' :: verb :: ("(MISSING)".data ++ format rest' [])
              | a :: as => formatVerb verb a ++ format rest' as
      else c :: format rest args

/-- `fmt.Sprintf`. -/
def Sprintf (f : String) (args : List Arg) : String :=
  String.mk (format f.data args)

/-! ## encoding/json -/

/-- What the program takes from outside the repository and what depends on the
platform. -/
structure Lib where
  /-- the case-insensitive comparison by which a JSON key is matched with a
  field tag when no tag equals the key -/
  equalFold : String → String → Bool
  /-- `(*time.Time).UnmarshalJSON`: the current value, the JSON value, the new
  value or an error -/
  timeUnmarshalJSON : Time → JSON → Except GoError Time
  /-- the number of bits of `int`: 32 or 64 -/
  intSize : Nat

/-- Whether an integer is a value of type `int`. -/
def Lib.fitsInt (lib : Lib) (i : Int) : Bool :=
  decide (-(2 ^ (lib.intSize - 1) : Int) ≤ i ∧ i < (2 ^ (lib.intSize - 1) : Int))

/-- How `UnmarshalTypeError` names the kind of a JSON value. -/
def JSON.kind : JSON → String
  | .null => "null"
  | .bool _ => "bool"
  | .num _ => "number"
  | .str _ => "string"
  | .arr _ => "array"
  | .obj _ => "object"

/-- The type error that the decoder saves when a JSON value does not fit. -/
def typeError (j : JSON) (t : GoType) : GoError :=
  GoError.unmarshalType j.kind (typeName t)

/-- The struct field that a JSON key selects: the field whose tag is the key,
and failing that the first field whose tag equals the key under case folding.
The result is the Go name of the field. -/
def findFold (lib : Lib) (key : String) : Fields → Option String
  | .nil => none
  | .cons n tag _ rest => if lib.equalFold tag key then some n else findFold lib key rest

/-- The exact match of `findField`. -/
def findExact (key : String) : Fields → Option String
  | .nil => none
  | .cons n tag _ rest => if tag = key then some n else findExact key rest

/-- The field selected by a key, see `findFold`. -/
def findField (lib : Lib) (fs : Fields) (key : String) : Option String :=
  match findExact key fs with
  | some n => some n
  | none => findFold lib key fs

/-- The elements of a JSON array stored into a slice: element `i` is stored
into the current element `i` when the slice has one and into a zero value
otherwise; the slice ends up with as many elements as the array. -/
def storeElems (store : GoVal → JSON → Except GoError GoVal) (z : GoVal) :
    List GoVal → List JSON → Except GoError (List GoVal)
  | _, [] => .ok []
  | [], x :: xs =>
      match store z x with
      | .error e => .error e
      | .ok v =>
          match storeElems store z [] xs with
          | .error e => .error e
          | .ok vs => .ok (v :: vs)
  | c :: cs, x :: xs =>
      match store c x with
      | .error e => .error e
      | .ok v =>
          match storeElems store z cs xs with
          | .error e => .error e
          | .ok vs => .ok (v :: vs)

/-- The members of a JSON object stored one after the other, from the left,
into an accumulated Go value; the first error ends the store. -/
def storeMembers (step : List (String × GoVal) → String → JSON → Except GoError (List (String × GoVal))) :
    List (String × GoVal) → List (String × JSON) → Except GoError (List (String × GoVal))
  | acc, [] => .ok acc
  | acc, (k, j) :: ms =>
      match step acc k j with
      | .error e => .error e
      | .ok acc' => storeMembers step acc' ms

mutual
/-- The store of a JSON value `j` into a Go value of type `t` whose current
value is `cur`, as `encoding/json` does it by reflection.

* null sets a pointer, a slice or a map to nil and leaves anything else as it
  is (a `time.Time` is handed null like any other value).
* a pointer is followed, allocating a zero value when it is nil.
* a `time.Time` implements `Unmarshaler` and is handed every JSON value.
* a string takes a JSON string; an int takes an integer literal that fits.
* a slice takes an array, a map and a struct take an object; the members of an
  object are stored from the left, a map entry starts from the zero value,
  a struct field from its current value; a key that selects no field is skipped.
* anything else is an `UnmarshalTypeError`.

The decoder of Go saves the first type error and goes on; the callers in this
program drop the value when there is an error, so the model stops at the first
error. -/
def unmarshal (lib : Lib) : GoType → GoVal → JSON → Except GoError GoVal
  | .ptr t, cur, j =>
      match j with
      | .null => .ok .nil
      | _ =>
          match unmarshal lib t (match cur with | .ptr v => v | _ => zero t) j with
          | .error e => .error e
          | .ok v => .ok (.ptr v)
  | .time, cur, j =>
      match lib.timeUnmarshalJSON (match cur with | .time c => c | _ => Time.zero) j with
      | .error e => .error e
      | .ok t => .ok (.time t)
  | .string, cur, j =>
      match j with
      | .null => .ok cur
      | .str s => .ok (.str s)
      | _ => .error (typeError j .string)
  | .int, cur, j =>
      match j with
      | .null => .ok cur
      | .num (.integer i) =>
          if lib.fitsInt i then .ok (.int i)
          else .error (GoError.unmarshalType ("number " ++ formatInt i) "int")
      | .num (.fractional lit) => .error (GoError.unmarshalType ("number " ++ lit) "int")
      | _ => .error (typeError j .int)
  | .slice t, cur, j =>
      match j with
      | .null => .ok .nil
      | .arr xs =>
          match storeElems (unmarshal lib t) (zero t)
              (match cur with | .slice cs => cs | _ => []) xs with
          | .error e => .error e
          | .ok vs => .ok (.slice vs)
      | _ => .error (typeError j (.slice t))
  | .map t, cur, j =>
      match j with
      | .null => .ok .nil
      | .obj ms =>
          match storeMembers
              (fun acc k v =>
                match unmarshal lib t (zero t) v with
                | .error e => .error e
                | .ok x => .ok (mapSet acc k x))
              (match cur with | .map kvs => kvs | _ => []) ms with
          | .error e => .error e
          | .ok kvs => .ok (.map kvs)
      | _ => .error (typeError j (.map t))
  | .struct n fs, cur, j =>
      match j with
      | .null => .ok cur
      | .obj ms =>
          match storeMembers
              (fun acc k v =>
                match findField lib fs k with
                | none => .ok acc
                | some f => unmarshalField lib fs f acc v)
              (match cur with | .struct vs => vs | _ => zeroFields fs) ms with
          | .error e => .error e
          | .ok vs => .ok (.struct vs)
      | _ => .error (typeError j (.struct n fs))
/-- The store of a JSON value into the field named `f` of a struct whose
fields currently are `cur`. -/
def unmarshalField (lib : Lib) : Fields → String → List (String × GoVal) → JSON →
    Except GoError (List (String × GoVal))
  | .nil, _, cur, _ => .ok cur
  | .cons n _ t rest, f, cur, j =>
      if n = f then
        match unmarshal lib t ((cur.lookup n).getD (zero t)) j with
        | .error e => .error e
        | .ok v => .ok (setField cur n v)
      else unmarshalField lib rest f cur j
end

/-- A buffered response body.  The scanner of `encoding/json` is not part of
the repository: a body is represented by what the scanner reads as its first
JSON value, or by the error with which it fails (empty body, value cut short,
text that is not JSON). -/
structure Bytes where
  scanned : Except ScanError JSON

/-- A `*json.Decoder` over a buffered body, as `json.NewDecoder(bytes.NewReader(b))`
builds it.  The program decodes once from each decoder. -/
structure Decoder where
  body : Bytes

/-- `json.NewDecoder(bytes.NewReader(b))`. -/
def NewDecoder (b : Bytes) : Decoder := ⟨b⟩

/-- `dec.Decode(&v)` for a variable `v` of type `t` whose current value is
`cur`: the new value of `v`, or the error. -/
def Decoder.Decode (lib : Lib) (dec : Decoder) (t : GoType) (cur : GoVal) :
    Except GoError GoVal :=
  match dec.body.scanned with
  | .error e => .error (GoError.scan e)
  | .ok j => unmarshal lib t cur j

/-! ## net/http -/

/-- An HTTP response: the status code and what `ioutil.ReadAll(res.Body)`
yields, the buffered body or a read error. -/
structure Response where
  StatusCode : Int
  Body : Except GoError Bytes

/-- The network: how it answers a GET of each URL, and the URLs requested so
far, oldest first. -/
structure World where
  respond : String → Except GoError Response
  requests : List String

/-- `http.StatusOK`. -/
def http.StatusOK : Int := 200

/-- `http.Get`: one request, logged. -/
def http.Get (w : World) (url : String) : World × Except GoError Response :=
  ({ w with requests := w.requests ++ [url] }, w.respond url)

/-! ## The program: types -/

/-- Struct fields from a list of (Go name, JSON tag, type). -/
def fields : List (String × String × GoType) → Fields
  | [] => .nil
  | (n, tag, t) :: rest => .cons n tag t (fields rest)

/-- `const baseUrl`. -/
def baseUrl : String := "http://api.nhk.or.jp/"

/-- `type Client struct`. -/
structure Client where
  apikey : String

/-- `type NhkLogo struct`. -/
def NhkLogo : GoType :=
  .struct "NhkLogo" (fields [("Url", "url", .string), ("Width", "width", .string),
    ("Height", "height", .string)])

/-- `type NhkLink struct`. -/
def NhkLink : GoType :=
  .struct "NhkLink" (fields [("Url", "url", .string), ("Title", "title", .string),
    ("Id", "id", .string)])

/-- `type NhkExtra struct`. -/
def NhkExtra : GoType :=
  .struct "NhkExtra" (fields [("OndemandProgram", "ondemand_program", NhkLink),
    ("OndemandEpisode", "ondemand_episode", NhkLink)])

/-- `type NhkArea struct`. -/
def NhkArea : GoType :=
  .struct "NhkArea" (fields [("Id", "id", .string), ("Name", "name", .string)])

/-- `type NhkService struct`. -/
def NhkService : GoType :=
  .struct "NhkService" (fields [("Id", "id", .string), ("Name", "name", .string),
    ("LogoS", "logo_s", NhkLogo), ("LogoM", "logo_m", NhkLogo), ("LogoL", "logo_l", NhkLogo)])

/-- `type NhkProgram struct`. -/
def NhkProgram : GoType :=
  .struct "NhkProgram" (fields [("Id", "id", .string), ("EventId", "event_id", .string),
    ("StartTime", "start_time", .time), ("EndTime", "end_time", .time),
    ("Area", "area", NhkArea), ("Service", "service", NhkService),
    ("Title", "title", .string), ("Subtitle", "subtitle", .string),
    ("Genres", "genres", .slice .string)])

/-- `type NhkDescription struct`. -/
def NhkDescription : GoType :=
  .struct "NhkDescription" (fields [("Id", "id", .string), ("EventId", "event_id", .string),
    ("StartTime", "start_time", .time), ("EndTime", "end_time", .time),
    ("Area", "area", NhkArea), ("Service", "service", NhkService),
    ("Title", "title", .string), ("Subtitle", "subtitle", .string),
    ("Genres", "genres", .slice .string), ("ProgramLogo", "program_logo", NhkLogo),
    ("ProgramUrl", "program_url", .string), ("EpisodeUrl", "episode_url", .string),
    ("Hashtags", "hashtags", .slice .string), ("Extras", "extras", NhkExtra)])

/-- `type NhkNowOnAir struct`. -/
def NhkNowOnAir : GoType :=
  .struct "NhkNowOnAir" (fields [("Previous", "previous", NhkProgram),
    ("Present", "present", NhkProgram), ("Following", "following", NhkProgram)])

/-- `type NhkList struct`. -/
def NhkList : GoType :=
  .struct "NhkList" (fields [("List", "list", .map (.slice (.ptr NhkProgram)))])

/-- `type NhkDescriptionList struct`. -/
def NhkDescriptionList : GoType :=
  .struct "NhkDescriptionList" (fields [("List", "list", .map (.slice (.ptr NhkDescription)))])

/-- `type NhkNowOnAirList struct`. -/
def NhkNowOnAirList : GoType :=
  .struct "NhkNowOnAirList" (fields [("NowOnAirList", "nowonair_list", .map (.ptr NhkNowOnAir))])

/-- `type NhkError struct`. -/
def NhkError : GoType :=
  .struct "NhkError" (fields [("Code", "code", .int), ("Message", "message", .string)])

/-- A Go value of type `int` as a `Sprintf` operand. -/
def GoVal.intArg : GoVal → Arg
  | .int i => .int i
  | _ => .int 0

/-- A Go value of type `string` as a `Sprintf` operand. -/
def GoVal.strArg : GoVal → Arg
  | .str s => .str s
  | _ => .str ""

/-! ## The program: functions -/

/-- `func apiError(dec *json.Decoder, statusCode int) error`. -/
def apiError (lib : Lib) (dec : Decoder) (statusCode : Int) : Run GoError :=
  -- errResult := make(map[string]*NhkError); err := dec.Decode(&errResult)
  match dec.Decode lib (.map (.ptr NhkError)) (.map []) with
  | .error err => .ret err
  | .ok errResult =>
      let errMessage :=
        Sprintf "An error occurred during calling NHK API. [status: %d]" [.int statusCode]
      -- if nhkError, prs := errResult["error"]; prs
      match errResult.index "error" with
      | some nhkError =>
          match nhkError with
          | .ptr s =>
              .ret (errors.New (errMessage ++
                Sprintf "[code: %d][message: %s]" [(s.field "Code").intArg, (s.field "Message").strArg]))
          | _ => .panic nilDereference
      | none => .ret (errors.New errMessage)

/-- `func decoder(url string) (*json.Decoder, error)`; `nil` is `none`. -/
def decoder (lib : Lib) (w : World) (url : String) :
    World × Run (Option Decoder × Option GoError) :=
  match http.Get w url with
  | (w1, .error err) => (w1, .ret (none, some err))
  | (w1, .ok res) =>
      match res.Body with
      | .error err => (w1, .ret (none, some err))
      | .ok b =>
          let dec := NewDecoder b
          let statusCode := res.StatusCode
          if statusCode ≠ http.StatusOK then
            match apiError lib dec statusCode with
            | .panic msg => (w1, .panic msg)
            | .ret err => (w1, .ret (none, some err))
          else (w1, .ret (some dec, none))

/-- `func getNhkList(url string) (*NhkList, error)`. -/
def getNhkList (lib : Lib) (w : World) (url : String) : World × Run (GoVal × Option GoError) :=
  match decoder lib w url with
  | (w1, .panic msg) => (w1, .panic msg)
  | (w1, .ret (_, some err)) => (w1, .ret (.nil, some err))
  | (w1, .ret (none, none)) => (w1, .panic nilDereference)
  | (w1, .ret (some dec, none)) =>
      -- var result *NhkList; err = dec.Decode(&result)
      match dec.Decode lib (.ptr NhkList) .nil with
      | .error err => (w1, .ret (.nil, some err))
      | .ok result => (w1, .ret (result, none))

/-- `func getNhkDescriptionList(url string) (*NhkDescriptionList, error)`. -/
def getNhkDescriptionList (lib : Lib) (w : World) (url : String) :
    World × Run (GoVal × Option GoError) :=
  match decoder lib w url with
  | (w1, .panic msg) => (w1, .panic msg)
  | (w1, .ret (_, some err)) => (w1, .ret (.nil, some err))
  | (w1, .ret (none, none)) => (w1, .panic nilDereference)
  | (w1, .ret (some dec, none)) =>
      match dec.Decode lib (.ptr NhkDescriptionList) .nil with
      | .error err => (w1, .ret (.nil, some err))
      | .ok result => (w1, .ret (result, none))

/-- `func getNhkNowOnAirList(url string) (*NhkNowOnAirList, error)`. -/
def getNhkNowOnAirList (lib : Lib) (w : World) (url : String) :
    World × Run (GoVal × Option GoError) :=
  match decoder lib w url with
  | (w1, .panic msg) => (w1, .panic msg)
  | (w1, .ret (_, some err)) => (w1, .ret (.nil, some err))
  | (w1, .ret (none, none)) => (w1, .panic nilDereference)
  | (w1, .ret (some dec, none)) =>
      match dec.Decode lib (.ptr NhkNowOnAirList) .nil with
      | .error err => (w1, .ret (.nil, some err))
      | .ok result => (w1, .ret (result, none))

/-- `func (c *Client) ProgramList(version, area, service, date string) (*NhkList, error)`. -/
def Client.ProgramList (lib : Lib) (w : World) (c : Client) (version area service date : String) :
    World × Run (GoVal × Option GoError) :=
  let url := Sprintf (baseUrl ++ "%s/pg/list/%s/%s/%s.json?key=%s")
    [.str version, .str area, .str service, .str date, .str c.apikey]
  getNhkList lib w url

/-- `func (c *Client) ProgramGenre(version, area, service, genre, date string) (*NhkList, error)`. -/
def Client.ProgramGenre (lib : Lib) (w : World) (c : Client)
    (version area service genre date : String) : World × Run (GoVal × Option GoError) :=
  let url := Sprintf (baseUrl ++ "%s/pg/genre/%s/%s/%s/%s.json?key=%s")
    [.str version, .str area, .str service, .str genre, .str date, .str c.apikey]
  getNhkList lib w url

/-- `func (c *Client) ProgramInfo(version, area, service, id string) (*NhkDescriptionList, error)`. -/
def Client.ProgramInfo (lib : Lib) (w : World) (c : Client) (version area service id : String) :
    World × Run (GoVal × Option GoError) :=
  let url := Sprintf (baseUrl ++ "%s/pg/info/%s/%s/%s.json?key=%s")
    [.str version, .str area, .str service, .str id, .str c.apikey]
  getNhkDescriptionList lib w url

/-- `func (c *Client) NowOnAir(version, area, service string) (*NhkNowOnAirList, error)`. -/
def Client.NowOnAir (lib : Lib) (w : World) (c : Client) (version area service : String) :
    World × Run (GoVal × Option GoError) :=
  let url := Sprintf (baseUrl ++ "%s/pg/now/%s/%s.json?key=%s")
    [.str version, .str area, .str service, .str c.apikey]
  getNhkNowOnAirList lib w url

/-- `func NewClient(apikey string) Client`. -/
def NewClient (apikey : String) : Client := { apikey := apikey }

/-! ## Instances used to run the model -/

/-- One instance of `Lib`, to run the model on concrete inputs: case folding of
ASCII letters, a 64-bit `int`, and a `time.Time` that keeps its value on null,
takes every JSON string and refuses everything else. -/
def Lib.sample : Lib where
  equalFold a b := a.data.map Char.toLower == b.data.map Char.toLower
  timeUnmarshalJSON cur j :=
    match j with
    | .null => .ok cur
    | .str s => .ok ⟨s.length, 0⟩
    | _ => .error (GoError.unmarshaler "Time.UnmarshalJSON: input is not a JSON string")
  intSize := 64

/-- A network that answers every GET with the given status code and body. -/
def World.answering (status : Int) (body : Except ScanError JSON) : World where
  respond _ := .ok { StatusCode := status, Body := .ok ⟨body⟩ }
  requests := []

/-- A network on which every GET fails with the given error. -/
def World.failing (e : GoError) : World where
  respond _ := .error e
  requests := []

/-! ## URLs, as the specification reads them

The program builds its URLs by `Sprintf` and never parses one.  The
specification speaks of a well-formed URL and of its query parameter `key`;
the definitions below state these two notions after RFC 3986 and the form
encoding of query strings. -/

/-- The unreserved characters of RFC 3986: letters, digits, `-`, `.`, `_`, `~`. -/
def isUnreserved (c : Char) : Bool :=
  c.isAlphanum || c == '-' || c == '.' || c == '_' || c == '~'

/-- The reserved characters of RFC 3986 (general and sub-delimiters). -/
def isReserved (c : Char) : Bool :=
  ":/?#[]@!$&()*+,;=".data.contains c || c == '\x27'

/-- The value of a hexadecimal digit. -/
def hexVal (c : Char) : Option Nat :=
  if c.isDigit then some (c.toNat - '0'.toNat)
  else if 'a' ≤ c ∧ c ≤ 'f' then some (c.toNat - 'a'.toNat + 10)
  else if 'A' ≤ c ∧ c ≤ 'F' then some (c.toNat - 'A'.toNat + 10)
  else none

/-- Every character is one that a URI may contain, and every `%` starts an
escape of two hexadecimal digits. -/
def uriChars : List Char → Bool
  | [] => true
  | c :: rest =>
      if c = '%' then
        match rest with
        | a :: b :: rest' => (hexVal a).isSome && (hexVal b).isSome && uriChars rest'
        | _ => false
      else (isUnreserved c || isReserved c) && uriChars rest

/-- A well-formed `http` URL: the scheme, then characters of a URI, with at most
one `#`. -/
def wellFormedURL (url : String) : Bool :=
  "http://".data.isPrefixOf url.data && uriChars url.data && decide (url.data.count '#' ≤ 1)

/-- The query component of a URL: what stands between the first `?` and the
fragment. -/
def queryOf (url : List Char) : Option (List Char) :=
  match (url.takeWhile (fun c => c != '#')).dropWhile (fun c => c != '?') with
  | [] => none
  | _ :: q => some q

/-- The pieces of a text between the occurrences of a separator. -/
def splitOnChar (sep : Char) : List Char → List (List Char)
  | [] => [[]]
  | c :: cs =>
      if c = sep then [] :: splitOnChar sep cs
      else
        match splitOnChar sep cs with
        | [] => [[c]]
        | p :: ps => (c :: p) :: ps

/-- The text that an escaped query name or value stands for: `%XY` is the
character of code `XY`, `+` is a blank. -/
def unescape : List Char → Option (List Char)
  | [] => some []
  | c :: rest =>
      if c = '%' then
        match rest with
        | a :: b :: rest' =>
            match hexVal a, hexVal b, unescape rest' with
            | some x, some y, some r => some (Char.ofNat (16 * x + y) :: r)
            | _, _, _ => none
        | _ => none
      else
        match unescape rest with
        | some r => some ((if c = '+' then ' ' else c) :: r)
        | none => none

/-- The value of the first parameter called `name` in the query of a URL. -/
def queryParam (url : String) (name : String) : Option String :=
  match queryOf url.data with
  | none => none
  | some q =>
      match (splitOnChar '&' q).find?
          (fun p => unescape (p.takeWhile (fun c => c != '=')) == some name.data) with
      | none => none
      | some p =>
          match unescape ((p.dropWhile (fun c => c != '=')).drop 1) with
          | none => none
          | some v => some (String.mk v)

/-! ## The shapes that `apiError` accepts, as a predicate on the body -/

/-- A JSON value that the decoder stores into an `int` without error. -/
def fitsIntField (lib : Lib) : JSON → Bool
  | .null => true
  | .num (.integer i) => lib.fitsInt i
  | _ => false

/-- A JSON value that the decoder stores into a `string` without error. -/
def fitsStringField : JSON → Bool
  | .null => true
  | .str _ => true
  | _ => false

/-- A JSON value that the decoder stores into a `*NhkError` without error: null,
or an object in which every member that selects the field `Code` is null or an
integer literal that fits `int`, and every member that selects the field
`Message` is null or a string.  Members that select no field are free. -/
def fitsNhkError (lib : Lib) : JSON → Bool
  | .null => true
  | .obj ms =>
      ms.all fun p =>
        match findField lib (fields [("Code", "code", .int), ("Message", "message", .string)]) p.1 with
        | none => true
        | some f => if f = "Code" then fitsIntField lib p.2 else fitsStringField p.2
  | _ => false

/-! ## Keys and fields -/

/-- The fields of a struct type. -/
def GoType.fields : GoType → Fields
  | .struct _ fs => fs
  | _ => .nil

/-- Whether a JSON key selects the field named `field` of the struct type `t`,
by its tag or by its tag under case folding (see `findField`). -/
def selects (lib : Lib) (t : GoType) (key field : String) : Bool :=
  findField lib t.fields key == some field

/-- Whether a JSON key selects some field of the struct type `t`. -/
def selectsSome (lib : Lib) (t : GoType) (key : String) : Bool :=
  (findField lib t.fields key).isSome

/-- The collection fields of the types of the results: the maps of the three
lists and the slices of a program and of a description. -/
def collectionFields : List (GoType × String) :=
  [(NhkList, "List"), (NhkDescriptionList, "List"), (NhkNowOnAirList, "NowOnAirList"),
   (NhkProgram, "Genres"), (NhkDescription, "Genres"), (NhkDescription, "Hashtags")]

/-! ## The members of an error envelope -/

/-- The integer code that an error envelope carries: the integer literal of the
last member that selects the field `Code` and is an integer literal. -/
def codeMember (lib : Lib) : List (String × JSON) → Option Int
  | [] => none
  | p :: rest =>
      match codeMember lib rest with
      | some c => some c
      | none =>
          if selects lib NhkError p.1 "Code" then
            match p.2 with
            | .num (.integer i) => some i
            | _ => none
          else none

/-- The message that an error envelope carries: the string of the last member
that selects the field `Message` and is a string. -/
def messageMember (lib : Lib) : List (String × JSON) → Option String
  | [] => none
  | p :: rest =>
      match messageMember lib rest with
      | some m => some m
      | none =>
          if selects lib NhkError p.1 "Message" then
            match p.2 with
            | .str s => some s
            | _ => none
          else none

/-! ## The bodies that a decoder of a result accepts, as a predicate -/

/-- The method `UnmarshalJSON` of `time.Time` does not read the value it is
called on: whether it succeeds depends on the JSON value only. -/
def Lib.timeIgnoresReceiver (lib : Lib) : Prop :=
  ∀ (c : Time) (j : JSON),
    (∃ t, lib.timeUnmarshalJSON c j = .ok t) ↔ (∃ t, lib.timeUnmarshalJSON Time.zero j = .ok t)

mutual
/-- A JSON value fits a Go type: null fits every type; a pointer takes what its
element takes; a `time.Time` takes what its `UnmarshalJSON` accepts; a string
takes a JSON string; an int an integer literal within its range; a slice an
array whose elements fit; a map an object whose member values fit; a struct an
object in which every member that selects a field fits that field (members that
select no field are free). -/
def fits (lib : Lib) : GoType → JSON → Bool
  | .ptr t, j =>
      match j with
      | .null => true
      | _ => fits lib t j
  | .time, j =>
      match lib.timeUnmarshalJSON Time.zero j with
      | .ok _ => true
      | .error _ => false
  | .string, j =>
      match j with
      | .null => true
      | .str _ => true
      | _ => false
  | .int, j =>
      match j with
      | .null => true
      | .num (.integer i) => lib.fitsInt i
      | _ => false
  | .slice t, j =>
      match j with
      | .null => true
      | .arr xs => xs.all (fits lib t)
      | _ => false
  | .map t, j =>
      match j with
      | .null => true
      | .obj ms => ms.all (fun p => fits lib t p.2)
      | _ => false
  | .struct _ fs, j =>
      match j with
      | .null => true
      | .obj ms =>
          ms.all (fun p =>
            match findField lib fs p.1 with
            | none => true
            | some f => fitsField lib fs f p.2)
      | _ => false
/-- A JSON value fits the field named `f` of a struct. -/
def fitsField (lib : Lib) : Fields → String → JSON → Bool
  | .nil, _, _ => true
  | .cons n _ t rest, f, j => if n = f then fits lib t j else fitsField lib rest f j
end

end Gonhk

/-! ## Lemmas: Sprintf on the format strings of the program -/

namespace Gonhk

theorem Sprintf_list (version area service date k : String) :
    Sprintf (baseUrl ++ "%s/pg/list/%s/%s/%s.json?key=%s")
      [.str version, .str area, .str service, .str date, .str k]
    = "http://api.nhk.or.jp/" ++ version ++ "/pg/list/" ++ area ++ "/" ++ service ++ "/" ++ date
        ++ ".json?key=" ++ k := by
  have h : (baseUrl ++ "%s/pg/list/%s/%s/%s.json?key=%s").data
      = "http://api.nhk.or.jp/%s/pg/list/%s/%s/%s.json?key=%s".data := by rfl
  apply String.ext
  simp only [Sprintf, h, String.data_append]
  simp [format, formatVerb, formatExtra]

theorem Sprintf_genre (version area service genre date k : String) :
    Sprintf (baseUrl ++ "%s/pg/genre/%s/%s/%s/%s.json?key=%s")
      [.str version, .str area, .str service, .str genre, .str date, .str k]
    = "http://api.nhk.or.jp/" ++ version ++ "/pg/genre/" ++ area ++ "/" ++ service ++ "/" ++ genre
        ++ "/" ++ date ++ ".json?key=" ++ k := by
  have h : (baseUrl ++ "%s/pg/genre/%s/%s/%s/%s.json?key=%s").data
      = "http://api.nhk.or.jp/%s/pg/genre/%s/%s/%s/%s.json?key=%s".data := by rfl
  apply String.ext
  simp only [Sprintf, h, String.data_append]
  simp [format, formatVerb, formatExtra]

theorem Sprintf_info (version area service id k : String) :
    Sprintf (baseUrl ++ "%s/pg/info/%s/%s/%s.json?key=%s")
      [.str version, .str area, .str service, .str id, .str k]
    = "http://api.nhk.or.jp/" ++ version ++ "/pg/info/" ++ area ++ "/" ++ service ++ "/" ++ id
        ++ ".json?key=" ++ k := by
  have h : (baseUrl ++ "%s/pg/info/%s/%s/%s.json?key=%s").data
      = "http://api.nhk.or.jp/%s/pg/info/%s/%s/%s.json?key=%s".data := by rfl
  apply String.ext
  simp only [Sprintf, h, String.data_append]
  simp [format, formatVerb, formatExtra]

theorem Sprintf_now (version area service k : String) :
    Sprintf (baseUrl ++ "%s/pg/now/%s/%s.json?key=%s")
      [.str version, .str area, .str service, .str k]
    = "http://api.nhk.or.jp/" ++ version ++ "/pg/now/" ++ area ++ "/" ++ service
        ++ ".json?key=" ++ k := by
  have h : (baseUrl ++ "%s/pg/now/%s/%s.json?key=%s").data
      = "http://api.nhk.or.jp/%s/pg/now/%s/%s.json?key=%s".data := by rfl
  apply String.ext
  simp only [Sprintf, h, String.data_append]
  simp [format, formatVerb, formatExtra]

theorem Sprintf_status (s : Int) :
    Sprintf "An error occurred during calling NHK API. [status: %d]" [.int s]
    = "An error occurred during calling NHK API. [status: " ++ formatInt s ++ "]" := by
  apply String.ext
  simp only [Sprintf, String.data_append]
  simp [format, formatVerb, formatExtra]

theorem Sprintf_code (c : Int) (m : String) :
    Sprintf "[code: %d][message: %s]" [.int c, .str m]
    = "[code: " ++ formatInt c ++ "][message: " ++ m ++ "]" := by
  apply String.ext
  simp only [Sprintf, String.data_append]
  simp [format, formatVerb, formatExtra]

/-! ## Lemmas: the request log -/

theorem decoder_world (lib : Lib) (w : World) (url : String) :
    (decoder lib w url).1 = { w with requests := w.requests ++ [url] } := by
  unfold decoder http.Get
  cases w.respond url with
  | error e => rfl
  | ok res =>
      simp only
      cases res.Body with
      | error e => rfl
      | ok b =>
          simp only
          split
          · split <;> rfl
          · rfl

theorem getNhkList_world (lib : Lib) (w : World) (url : String) :
    (getNhkList lib w url).1 = { w with requests := w.requests ++ [url] } := by
  rw [← decoder_world lib w url]
  unfold getNhkList
  split <;> (try split) <;> simp_all

theorem getNhkDescriptionList_world (lib : Lib) (w : World) (url : String) :
    (getNhkDescriptionList lib w url).1 = { w with requests := w.requests ++ [url] } := by
  rw [← decoder_world lib w url]
  unfold getNhkDescriptionList
  split <;> (try split) <;> simp_all

theorem getNhkNowOnAirList_world (lib : Lib) (w : World) (url : String) :
    (getNhkNowOnAirList lib w url).1 = { w with requests := w.requests ++ [url] } := by
  rw [← decoder_world lib w url]
  unfold getNhkNowOnAirList
  split <;> (try split) <;> simp_all

end Gonhk

/-! ## Lemmas: the outcomes of `decoder` and of its three callers -/

namespace Gonhk

theorem decoder_transport (lib : Lib) (w : World) (url : String) (e : GoError)
    (h : w.respond url = .error e) :
    decoder lib w url = ({ w with requests := w.requests ++ [url] }, .ret (none, some e)) := by
  simp [decoder, http.Get, h]

theorem decoder_read (lib : Lib) (w : World) (url : String) (res : Response) (e : GoError)
    (h : w.respond url = .ok res) (hb : res.Body = .error e) :
    decoder lib w url = ({ w with requests := w.requests ++ [url] }, .ret (none, some e)) := by
  simp [decoder, http.Get, h, hb]

theorem decoder_status (lib : Lib) (w : World) (url : String) (res : Response) (b : Bytes)
    (h : w.respond url = .ok res) (hb : res.Body = .ok b) (hs : res.StatusCode ≠ 200) :
    decoder lib w url = ({ w with requests := w.requests ++ [url] },
      match apiError lib (NewDecoder b) res.StatusCode with
      | .panic msg => .panic msg
      | .ret err => .ret (none, some err)) := by
  simp only [decoder, http.Get, h, hb, http.StatusOK]
  rw [if_pos hs]
  cases apiError lib (NewDecoder b) res.StatusCode <;> rfl

theorem decoder_ok (lib : Lib) (w : World) (url : String) (res : Response) (b : Bytes)
    (h : w.respond url = .ok res) (hb : res.Body = .ok b) (hs : res.StatusCode = 200) :
    decoder lib w url = ({ w with requests := w.requests ++ [url] },
      .ret (some (NewDecoder b), none)) := by
  simp [decoder, http.Get, h, hb, hs, http.StatusOK]

/-- What `getNhkList` does with the outcome of `decoder`. -/
theorem getNhkList_eq (lib : Lib) (w : World) (url : String) :
    getNhkList lib w url =
      ((decoder lib w url).1,
        match (decoder lib w url).2 with
        | .panic msg => .panic msg
        | .ret (_, some err) => .ret (.nil, some err)
        | .ret (none, none) => .panic nilDereference
        | .ret (some dec, none) =>
            match dec.Decode lib (.ptr NhkList) .nil with
            | .error err => .ret (.nil, some err)
            | .ok result => .ret (result, none)) := by
  unfold getNhkList
  split <;> simp_all
  split <;> simp_all

theorem getNhkDescriptionList_eq (lib : Lib) (w : World) (url : String) :
    getNhkDescriptionList lib w url =
      ((decoder lib w url).1,
        match (decoder lib w url).2 with
        | .panic msg => .panic msg
        | .ret (_, some err) => .ret (.nil, some err)
        | .ret (none, none) => .panic nilDereference
        | .ret (some dec, none) =>
            match dec.Decode lib (.ptr NhkDescriptionList) .nil with
            | .error err => .ret (.nil, some err)
            | .ok result => .ret (result, none)) := by
  unfold getNhkDescriptionList
  split <;> simp_all
  split <;> simp_all

theorem getNhkNowOnAirList_eq (lib : Lib) (w : World) (url : String) :
    getNhkNowOnAirList lib w url =
      ((decoder lib w url).1,
        match (decoder lib w url).2 with
        | .panic msg => .panic msg
        | .ret (_, some err) => .ret (.nil, some err)
        | .ret (none, none) => .panic nilDereference
        | .ret (some dec, none) =>
            match dec.Decode lib (.ptr NhkNowOnAirList) .nil with
            | .error err => .ret (.nil, some err)
            | .ok result => .ret (result, none)) := by
  unfold getNhkNowOnAirList
  split <;> simp_all
  split <;> simp_all

end Gonhk

/-! ## C1: the requested URLs -/

namespace Gonhk

/-- C1. For every API key k and all strings version, area, service, genre, date
and id, each of the four operations of a Client holding k is the fetch of
exactly the URL of its shape, and that URL is the one request it adds to the
log of the network: list, genre, info and now-on-air. -/
theorem C1_operations_request_url_shapes (lib : Lib) (w : World)
    (k version area service genre date id : String) :
    (Client.ProgramList lib w ⟨k⟩ version area service date
        = getNhkList lib w ("http://api.nhk.or.jp/" ++ version ++ "/pg/list/" ++ area ++ "/"
            ++ service ++ "/" ++ date ++ ".json?key=" ++ k)
      ∧ (Client.ProgramList lib w ⟨k⟩ version area service date).1.requests
        = w.requests ++ ["http://api.nhk.or.jp/" ++ version ++ "/pg/list/" ++ area ++ "/"
            ++ service ++ "/" ++ date ++ ".json?key=" ++ k])
    ∧ (Client.ProgramGenre lib w ⟨k⟩ version area service genre date
        = getNhkList lib w ("http://api.nhk.or.jp/" ++ version ++ "/pg/genre/" ++ area ++ "/"
            ++ service ++ "/" ++ genre ++ "/" ++ date ++ ".json?key=" ++ k)
      ∧ (Client.ProgramGenre lib w ⟨k⟩ version area service genre date).1.requests
        = w.requests ++ ["http://api.nhk.or.jp/" ++ version ++ "/pg/genre/" ++ area ++ "/"
            ++ service ++ "/" ++ genre ++ "/" ++ date ++ ".json?key=" ++ k])
    ∧ (Client.ProgramInfo lib w ⟨k⟩ version area service id
        = getNhkDescriptionList lib w ("http://api.nhk.or.jp/" ++ version ++ "/pg/info/" ++ area
            ++ "/" ++ service ++ "/" ++ id ++ ".json?key=" ++ k)
      ∧ (Client.ProgramInfo lib w ⟨k⟩ version area service id).1.requests
        = w.requests ++ ["http://api.nhk.or.jp/" ++ version ++ "/pg/info/" ++ area
            ++ "/" ++ service ++ "/" ++ id ++ ".json?key=" ++ k])
    ∧ (Client.NowOnAir lib w ⟨k⟩ version area service
        = getNhkNowOnAirList lib w ("http://api.nhk.or.jp/" ++ version ++ "/pg/now/" ++ area
            ++ "/" ++ service ++ ".json?key=" ++ k)
      ∧ (Client.NowOnAir lib w ⟨k⟩ version area service).1.requests
        = w.requests ++ ["http://api.nhk.or.jp/" ++ version ++ "/pg/now/" ++ area
            ++ "/" ++ service ++ ".json?key=" ++ k]) := by
  simp only [Client.ProgramList, Client.ProgramGenre, Client.ProgramInfo, Client.NowOnAir,
    Sprintf_list, Sprintf_genre, Sprintf_info, Sprintf_now, getNhkList_world,
    getNhkDescriptionList_world, getNhkNowOnAirList_world, and_self]

/-! ## C5: transport failures -/

/-- C5. For every URL whose GET fails at transport level with error e, decoder
and each of getNhkList, getNhkDescriptionList and getNhkNowOnAirList return nil
together with e itself; they do not fault, and they have asked the network
once. -/
theorem C5_transport_error_returned_unchanged (lib : Lib) (w : World) (url : String)
    (e : GoError) (h : w.respond url = .error e) :
    decoder lib w url = ({ w with requests := w.requests ++ [url] }, .ret (none, some e))
    ∧ getNhkList lib w url = ({ w with requests := w.requests ++ [url] }, .ret (.nil, some e))
    ∧ getNhkDescriptionList lib w url
        = ({ w with requests := w.requests ++ [url] }, .ret (.nil, some e))
    ∧ getNhkNowOnAirList lib w url
        = ({ w with requests := w.requests ++ [url] }, .ret (.nil, some e)) := by
  refine ⟨decoder_transport lib w url e h, ?_, ?_, ?_⟩
  · rw [getNhkList_eq, decoder_transport lib w url e h]
  · rw [getNhkDescriptionList_eq, decoder_transport lib w url e h]
  · rw [getNhkNowOnAirList_eq, decoder_transport lib w url e h]

/-- C5, at the empty URL on a network where every GET fails. -/
theorem C5_transport_error_witness :
    (World.failing (GoError.transport "Get \"\": unsupported protocol scheme \"\"")).respond ""
        = .error (GoError.transport "Get \"\": unsupported protocol scheme \"\"")
    ∧ getNhkList Lib.sample (World.failing (GoError.transport "Get \"\": unsupported protocol scheme \"\"")) ""
        = ({ World.failing (GoError.transport "Get \"\": unsupported protocol scheme \"\"") with
              requests := [] ++ [""] },
            .ret (.nil, some (GoError.transport "Get \"\": unsupported protocol scheme \"\""))) :=
  ⟨rfl, (C5_transport_error_returned_unchanged Lib.sample
    (World.failing (GoError.transport "Get \"\": unsupported protocol scheme \"\"")) ""
    (GoError.transport "Get \"\": unsupported protocol scheme \"\"") rfl).2.1⟩

/-! ## Lemmas: responses with a status other than 200 -/

/-- With a status other than 200 each of the three callers of `decoder` does
what apiError does on the body and the status: it returns nil together with
the error that apiError returns, and a fault of apiError is its fault. -/
theorem non_200_outcome (lib : Lib) (w : World) (url : String) (res : Response)
    (b : Bytes) (h : w.respond url = .ok res) (hb : res.Body = .ok b)
    (hs : res.StatusCode ≠ 200) :
    ∀ op ∈ [getNhkList, getNhkDescriptionList, getNhkNowOnAirList],
      op lib w url = ({ w with requests := w.requests ++ [url] },
        match apiError lib (NewDecoder b) res.StatusCode with
        | .ret err => .ret (.nil, some err)
        | .panic msg => .panic msg) := by
  intro op hop
  simp only [List.mem_cons, List.mem_singleton, List.not_mem_nil, or_false] at hop
  rcases hop with rfl | rfl | rfl
  · rw [getNhkList_eq, decoder_status lib w url res b h hb hs]
    cases apiError lib (NewDecoder b) res.StatusCode <;> rfl
  · rw [getNhkDescriptionList_eq, decoder_status lib w url res b h hb hs]
    cases apiError lib (NewDecoder b) res.StatusCode <;> rfl
  · rw [getNhkNowOnAirList_eq, decoder_status lib w url res b h hb hs]
    cases apiError lib (NewDecoder b) res.StatusCode <;> rfl

end Gonhk

/-! ## Lemmas: the store of the members of an object -/

namespace Gonhk

theorem storeMembers_append (step : List (String × GoVal) → String → JSON →
      Except GoError (List (String × GoVal)))
    (acc : List (String × GoVal)) (ms₁ ms₂ : List (String × JSON)) :
    storeMembers step acc (ms₁ ++ ms₂) =
      match storeMembers step acc ms₁ with
      | .error e => .error e
      | .ok acc' => storeMembers step acc' ms₂ := by
  induction ms₁ generalizing acc with
  | nil => simp [storeMembers]
  | cons p ms ih =>
      obtain ⟨k, j⟩ := p
      simp only [List.cons_append, storeMembers]
      cases step acc k j with
      | error e => rfl
      | ok acc' => exact ih acc'

/-- An invariant of the accumulated value that every step keeps holds at the end. -/
theorem storeMembers_invariant (step : List (String × GoVal) → String → JSON →
      Except GoError (List (String × GoVal)))
    (I : List (String × GoVal) → Prop) (ms : List (String × JSON))
    (hstep : ∀ acc k j acc', (k, j) ∈ ms → I acc → step acc k j = .ok acc' → I acc')
    (acc r : List (String × GoVal)) (hacc : I acc) (h : storeMembers step acc ms = .ok r) :
    I r := by
  induction ms generalizing acc with
  | nil =>
      simp only [storeMembers, Except.ok.injEq] at h
      exact h ▸ hacc
  | cons p ms ih =>
      obtain ⟨k, j⟩ := p
      simp only [storeMembers] at h
      cases hs : step acc k j with
      | error e => simp [hs] at h
      | ok acc' =>
          simp only [hs] at h
          exact ih (fun a k' j' a' hm => hstep a k' j' a' (List.mem_cons_of_mem _ hm)) acc'
            (hstep acc k j acc' (List.mem_cons_self _ _) hacc hs) h

/-- When every step succeeds, so does the whole store. -/
theorem storeMembers_ok (step : List (String × GoVal) → String → JSON →
      Except GoError (List (String × GoVal)))
    (ms : List (String × JSON))
    (hstep : ∀ acc k j, (k, j) ∈ ms → ∃ acc', step acc k j = .ok acc')
    (acc : List (String × GoVal)) :
    ∃ r, storeMembers step acc ms = .ok r := by
  induction ms generalizing acc with
  | nil => exact ⟨acc, rfl⟩
  | cons p ms ih =>
      obtain ⟨k, j⟩ := p
      obtain ⟨acc', hs⟩ := hstep acc k j (List.mem_cons_self _ _)
      simp only [storeMembers, hs]
      exact ih (fun a k' j' hm => hstep a k' j' (List.mem_cons_of_mem _ hm)) acc'

theorem lookup_cons_eq (k k₁ : String) (v₁ : GoVal) (kvs : List (String × GoVal)) :
    ((k₁, v₁) :: kvs).lookup k = if k = k₁ then some v₁ else kvs.lookup k := by
  by_cases h : k = k₁
  · have hb : (k == k₁) = true := by simp [h]
    simp [List.lookup, hb, h]
  · have hb : (k == k₁) = false := by simp [h]
    simp [List.lookup, hb, h]

theorem lookup_mapSet (kvs : List (String × GoVal)) (k k' : String) (v : GoVal) :
    (mapSet kvs k v).lookup k' = if k' = k then some v else kvs.lookup k' := by
  induction kvs with
  | nil => simp [mapSet, lookup_cons_eq]
  | cons p kvs ih =>
      obtain ⟨k₁, v₁⟩ := p
      by_cases h₁ : k₁ = k
      · subst h₁
        simp only [mapSet, if_true, lookup_cons_eq]
        by_cases h : k' = k₁
        · simp [h]
        · simp [h]
      · simp only [mapSet, h₁, if_false, lookup_cons_eq, ih]
        by_cases h : k' = k₁
        · subst h
          simp [h₁]
        · simp [h]

theorem lookup_setField (fs : List (String × GoVal)) (f g : String) (v : GoVal) (h : g ≠ f) :
    (setField fs f v).lookup g = fs.lookup g := by
  induction fs with
  | nil => rfl
  | cons p fs ih =>
      obtain ⟨k₁, v₁⟩ := p
      have ih' : (List.map (fun p => if (p.1 == f) = true then (f, v) else p) fs).lookup g
          = fs.lookup g := ih
      by_cases h₁ : k₁ = f
      · subst h₁
        simp only [setField, List.map_cons, beq_self_eq_true, if_true, lookup_cons_eq, h,
          if_false]
        exact ih'
      · have hb : (k₁ == f) = false := by simp [h₁]
        simp only [setField, List.map_cons, hb]
        rw [if_neg (by simp), lookup_cons_eq, lookup_cons_eq, ih']

end Gonhk

/-! ## Lemmas: the store into `map[string]*NhkError` -/

namespace Gonhk

theorem unmarshal_int_ok (lib : Lib) (cur : GoVal) (j : JSON) (h : fitsIntField lib j = true) :
    ∃ v, unmarshal lib .int cur j = .ok v := by
  cases j with
  | null => exact ⟨cur, by simp [unmarshal]⟩
  | num n =>
      cases n with
      | integer i =>
          have hi : lib.fitsInt i = true := by simpa [fitsIntField] using h
          exact ⟨.int i, by simp [unmarshal, hi]⟩
      | fractional lit => simp [fitsIntField] at h
  | bool b => simp [fitsIntField] at h
  | str s => simp [fitsIntField] at h
  | arr xs => simp [fitsIntField] at h
  | obj ms => simp [fitsIntField] at h

theorem unmarshal_string_ok (lib : Lib) (cur : GoVal) (j : JSON)
    (h : fitsStringField j = true) : ∃ v, unmarshal lib .string cur j = .ok v := by
  cases j with
  | null => exact ⟨cur, by simp [unmarshal]⟩
  | str s => exact ⟨.str s, by simp [unmarshal]⟩
  | num n => simp [fitsStringField] at h
  | bool b => simp [fitsStringField] at h
  | arr xs => simp [fitsStringField] at h
  | obj ms => simp [fitsStringField] at h

/-- A value that fits `*NhkError` is stored without error, and what is stored
is nil for null and a pointer to a struct otherwise. -/
theorem unmarshal_NhkError_ok (lib : Lib) (j : JSON) (h : fitsNhkError lib j = true) :
    ∃ v, unmarshal lib (.ptr NhkError) .nil j = .ok v := by
  cases j with
  | null => exact ⟨.nil, by simp [unmarshal]⟩
  | bool b => simp [fitsNhkError] at h
  | num n => simp [fitsNhkError] at h
  | str s => simp [fitsNhkError] at h
  | arr xs => simp [fitsNhkError] at h
  | obj ms =>
      simp only [fitsNhkError, List.all_eq_true] at h
      simp only [unmarshal, NhkError, zero]
      obtain ⟨r, hr⟩ := storeMembers_ok
        (fun acc k v =>
          match findField lib (fields [("Code", "code", .int), ("Message", "message", .string)]) k with
          | none => .ok acc
          | some f => unmarshalField lib
              (fields [("Code", "code", .int), ("Message", "message", .string)]) f acc v)
        ms
        (by
          intro acc k j hm
          have hk := h (k, j) hm
          simp only at hk
          cases hf : findField lib (fields [("Code", "code", .int), ("Message", "message", .string)]) k with
          | none => exact ⟨acc, by simp only [hf]⟩
          | some f =>
              simp only [hf] at hk
              by_cases hc : f = "Code"
              · subst hc
                simp only [if_true] at hk
                obtain ⟨v, hv⟩ := unmarshal_int_ok lib ((acc.lookup "Code").getD (zero .int)) j hk
                exact ⟨setField acc "Code" v, by simp only [hf]; simp [fields, unmarshalField, hv]⟩
              · simp only [hc, if_false] at hk
                by_cases hm' : f = "Message"
                · subst hm'
                  obtain ⟨v, hv⟩ := unmarshal_string_ok lib
                    ((acc.lookup "Message").getD (zero .string)) j hk
                  exact ⟨setField acc "Message" v, by simp only [hf]; simp [fields, unmarshalField, hv]⟩
                · have h1 : ¬ "Code" = f := fun e => hc e.symm
                  have h2 : ¬ "Message" = f := fun e => hm' e.symm
                  exact ⟨acc, by simp only [hf]; simp [fields, unmarshalField, h1, h2]⟩)
        (zeroFields (fields [("Code", "code", .int), ("Message", "message", .string)]))
      simp only [hr]
      exact ⟨_, rfl⟩

end Gonhk

namespace Gonhk

/-- The members of a body whose values all fit `*NhkError` are stored into the
map without error. -/
theorem errResult_ok (lib : Lib) (ms : List (String × JSON))
    (hfit : ∀ p ∈ ms, fitsNhkError lib p.2 = true) (acc : List (String × GoVal)) :
    ∃ r, storeMembers
      (fun acc k v =>
        match unmarshal lib (.ptr NhkError) (zero (.ptr NhkError)) v with
        | .error e => .error e
        | .ok x => .ok (mapSet acc k x)) acc ms = .ok r := by
  apply storeMembers_ok
  intro acc k j hm
  obtain ⟨v, hv⟩ := unmarshal_NhkError_ok lib j (hfit (k, j) hm)
  have hz : zero (.ptr NhkError) = .nil := by simp [zero]
  exact ⟨mapSet acc k v, by simp only [hz, hv]⟩

/-- A key that no member of the body has keeps the entry it had in the map. -/
theorem errResult_untouched (lib : Lib) (t : GoType) (key : String)
    (ms : List (String × JSON)) (hkey : ∀ p ∈ ms, p.1 ≠ key)
    (acc r : List (String × GoVal))
    (h : storeMembers
      (fun acc k v =>
        match unmarshal lib t (zero t) v with
        | .error e => .error e
        | .ok x => .ok (mapSet acc k x)) acc ms = .ok r) :
    r.lookup key = acc.lookup key := by
  refine storeMembers_invariant _ (fun a => a.lookup key = acc.lookup key) ms ?_ acc r rfl h
  intro a k j a' hm ha hs
  simp only at hs
  cases hu : unmarshal lib t (zero t) j with
  | error e => simp [hu] at hs
  | ok x =>
      simp only [hu, Except.ok.injEq] at hs
      have hk : key ≠ k := fun e => hkey (k, j) hm e.symm
      rw [← hs, lookup_mapSet, if_neg hk]
      exact ha

theorem apiError_text_full (s c : Int) (m : String) :
    Sprintf "An error occurred during calling NHK API. [status: %d]" [.int s]
        ++ Sprintf "[code: %d][message: %s]" [.int c, .str m]
      = "An error occurred during calling NHK API. [status: " ++ formatInt s ++ "][code: "
        ++ formatInt c ++ "][message: " ++ m ++ "]" := by
  rw [Sprintf_status, Sprintf_code]
  apply String.ext
  simp [String.data_append]

/-- One step of `unmarshal`: an object stored into a map. -/
theorem unmarshal_map_obj (lib : Lib) (t : GoType) (kvs : List (String × GoVal))
    (ms : List (String × JSON)) :
    unmarshal lib (.map t) (.map kvs) (.obj ms) =
      match storeMembers
          (fun acc k v =>
            match unmarshal lib t (zero t) v with
            | .error e => .error e
            | .ok x => .ok (mapSet acc k x)) kvs ms with
      | .error e => .error e
      | .ok r => .ok (.map r) := by
  rw [unmarshal]

/-- What `apiError` does once the body has been stored into the map. -/
theorem apiError_of_scanned (lib : Lib) (j : JSON) (s : Int) :
    apiError lib (NewDecoder ⟨.ok j⟩) s =
      match unmarshal lib (.map (.ptr NhkError)) (.map []) j with
      | .error err => .ret err
      | .ok errResult =>
          match errResult.index "error" with
          | some (.ptr v) =>
              .ret (errors.New
                (Sprintf "An error occurred during calling NHK API. [status: %d]" [.int s]
                  ++ Sprintf "[code: %d][message: %s]"
                    [(v.field "Code").intArg, (v.field "Message").strArg]))
          | some _ => .panic nilDereference
          | none =>
              .ret (errors.New
                (Sprintf "An error occurred during calling NHK API. [status: %d]" [.int s])) := by
  simp only [apiError, Decoder.Decode, NewDecoder]
  cases unmarshal lib (.map (.ptr NhkError)) (.map []) j with
  | error e => rfl
  | ok r =>
      simp only
      cases r.index "error" with
      | none => rfl
      | some v => cases v <;> rfl

end Gonhk

/-! ## C3, C10: the error mapper -/

namespace Gonhk

/-- C3 (as amended). For every status code s and every body that is a JSON
object lacking the key error and whose member values all fit a `*NhkError`
(see `fitsNhkError`), apiError returns the error made by `errors.New` whose text
is exactly the status text, with nothing appended. -/
theorem C3_apiError_without_error_key (lib : Lib) (s : Int) (ms : List (String × JSON))
    (hkey : ∀ p ∈ ms, p.1 ≠ "error") (hfit : ∀ p ∈ ms, fitsNhkError lib p.2 = true) :
    apiError lib (NewDecoder ⟨.ok (.obj ms)⟩) s
      = .ret (errors.New ("An error occurred during calling NHK API. [status: "
          ++ formatInt s ++ "]")) := by
  rw [apiError_of_scanned]
  obtain ⟨r, hr⟩ := errResult_ok lib ms hfit []
  have hl : r.lookup "error" = none := by
    rw [errResult_untouched lib (.ptr NhkError) "error" ms hkey [] r hr]
    rfl
  simp only [unmarshal_map_obj, hr, GoVal.index, hl, Sprintf_status]

/-- C3 (as amended), at status 404 and the success payload
`{"list":{"g1":[{"id":"2014"}]}}`. -/
theorem C3_apiError_without_error_key_witness :
    apiError Lib.sample
        (NewDecoder ⟨.ok (.obj [("list", .obj [("g1", .arr [.obj [("id", .str "2014")]])])])⟩) 404
      = .ret (errors.New "An error occurred during calling NHK API. [status: 404]") :=
  C3_apiError_without_error_key Lib.sample 404
    [("list", .obj [("g1", .arr [.obj [("id", .str "2014")]])])] (by decide) (by decide)

/-- C3 as stated fails: the body `{"a":1}` is a JSON object that lacks the key
error, and apiError returns the type error of the decoder, not the status
text. -/
theorem C3_counterexample :
    apiError Lib.sample (NewDecoder ⟨.ok (.obj [("a", .num (.integer 1))])⟩) 404
        = .ret (GoError.unmarshalType "number" "gonhk.NhkError")
    ∧ (GoError.unmarshalType "number" "gonhk.NhkError").Error
        ≠ "An error occurred during calling NHK API. [status: 404]" := by
  constructor
  · rfl
  · decide

/-- The body `{"error":null}` makes apiError fault, for every status code. -/
theorem apiError_null_envelope (lib : Lib) (s : Int) :
    apiError lib (NewDecoder ⟨.ok (.obj [("error", .null)])⟩) s = .panic nilDereference := by
  rw [apiError_of_scanned]
  simp [unmarshal, storeMembers, mapSet, GoVal.index, lookup_cons_eq]

/-- C10: the body `{"error":null}` stores a nil pointer under the key error, the
key is present, and apiError faults on reading the code through the nil pointer,
for every status code; with a status other than 200 the fault is that of
getNhkList. -/
theorem C10_apiError_faults_on_null_envelope (lib : Lib) (s : Int) :
    apiError lib (NewDecoder ⟨.ok (.obj [("error", .null)])⟩) s = .panic nilDereference
    ∧ (getNhkList lib (World.answering 404 (.ok (.obj [("error", .null)]))) "u").2
        = .panic nilDereference := by
  refine ⟨apiError_null_envelope lib s, ?_⟩
  rw [getNhkList_eq, decoder_status lib _ "u" ⟨404, .ok ⟨.ok (.obj [("error", .null)])⟩⟩
    ⟨.ok (.obj [("error", .null)])⟩ rfl rfl (by decide)]
  simp only [apiError_null_envelope]

end Gonhk

/-! ## C7: bodies that are not the object the error mapper expects -/

namespace Gonhk

/-- C7 (as amended). For every status code: a body on which the scanner fails
(empty, cut short, not JSON) makes apiError return that scan error itself; a
body whose first value is an array, a string, a number or a boolean makes it
return the type error of the decoder.  Each of these is a decode error and none
is a value of `errors.New`, so the outcome differs from the status text that an
object without the key error yields.  The body null is not among them: it is
accepted and yields the status text. -/
theorem C7_apiError_unparseable_body (lib : Lib) (s : Int) :
    (∀ e : ScanError, apiError lib (NewDecoder ⟨.error e⟩) s = .ret (GoError.scan e)
      ∧ (GoError.scan e).isDecodeError = true ∧ ∀ text, GoError.scan e ≠ errors.New text)
    ∧ (∀ xs, apiError lib (NewDecoder ⟨.ok (.arr xs)⟩) s
        = .ret (GoError.unmarshalType "array" "map[string]*gonhk.NhkError"))
    ∧ (∀ x, apiError lib (NewDecoder ⟨.ok (.str x)⟩) s
        = .ret (GoError.unmarshalType "string" "map[string]*gonhk.NhkError"))
    ∧ (∀ n, apiError lib (NewDecoder ⟨.ok (.num n)⟩) s
        = .ret (GoError.unmarshalType "number" "map[string]*gonhk.NhkError"))
    ∧ (∀ b, apiError lib (NewDecoder ⟨.ok (.bool b)⟩) s
        = .ret (GoError.unmarshalType "bool" "map[string]*gonhk.NhkError"))
    ∧ (∀ value type, (GoError.unmarshalType value type).isDecodeError = true
        ∧ ∀ text, GoError.unmarshalType value type ≠ errors.New text)
    ∧ apiError lib (NewDecoder ⟨.ok .null⟩) s
        = .ret (errors.New ("An error occurred during calling NHK API. [status: "
            ++ formatInt s ++ "]")) := by
  have hn : typeName (.map (.ptr NhkError)) = "map[string]*gonhk.NhkError" := by decide
  refine ⟨?_, ?_, ?_, ?_, ?_, ?_, ?_⟩
  · intro e
    refine ⟨rfl, rfl, ?_⟩
    intro text h
    cases h
  · intro xs
    rw [apiError_of_scanned]
    simp only [unmarshal, typeError, hn, JSON.kind]
  · intro x
    rw [apiError_of_scanned]
    simp only [unmarshal, typeError, hn, JSON.kind]
  · intro n
    rw [apiError_of_scanned]
    simp only [unmarshal, typeError, hn, JSON.kind]
  · intro b
    rw [apiError_of_scanned]
    simp only [unmarshal, typeError, hn, JSON.kind]
  · intro value type
    refine ⟨rfl, ?_⟩
    intro text h
    cases h
  · rw [apiError_of_scanned]
    simp only [unmarshal, GoVal.index, Sprintf_status]

/-- C7 as stated fails: null is a top-level value that is not an object, and
apiError returns the error with the status text, not a decode error. -/
theorem C7_counterexample :
    apiError Lib.sample (NewDecoder ⟨.ok .null⟩) 404
      = .ret (errors.New "An error occurred during calling NHK API. [status: 404]")
    ∧ (errors.New "An error occurred during calling NHK API. [status: 404]").isDecodeError
      = false := by
  constructor <;> rfl

end Gonhk

/-! ## Lemmas: the store into a pointer to a struct -/

namespace Gonhk

/-- The store of a JSON value into a nil pointer to a struct: null leaves the
pointer nil, an object is stored member by member into a zero struct, anything
else is a type error. -/
theorem unmarshal_ptr_struct (lib : Lib) (n : String) (fs : Fields) (j : JSON) :
    unmarshal lib (.ptr (.struct n fs)) .nil j =
      match j with
      | .null => .ok .nil
      | .obj ms =>
          match storeMembers
              (fun acc k v =>
                match findField lib fs k with
                | none => .ok acc
                | some f => unmarshalField lib fs f acc v)
              (zeroFields fs) ms with
          | .error e => .error e
          | .ok vs => .ok (.ptr (.struct vs))
      | _ => .error (typeError j (.struct n fs)) := by
  cases j with
  | null => simp [unmarshal]
  | obj ms =>
      simp only [unmarshal, zero]
      cases storeMembers (fun acc k v =>
                match findField lib fs k with
                | none => .ok acc
                | some f => unmarshalField lib fs f acc v) (zeroFields fs) ms <;> rfl
  | bool b => simp [unmarshal]
  | num x => simp [unmarshal]
  | str x => simp [unmarshal]
  | arr xs => simp [unmarshal]

/-- Members that select no field leave the struct as it is. -/
theorem storeMembers_skip (lib : Lib) (fs : Fields) (ms : List (String × JSON))
    (h : ∀ p ∈ ms, findField lib fs p.1 = none) (acc : List (String × GoVal)) :
    storeMembers
      (fun acc k v =>
        match findField lib fs k with
        | none => .ok acc
        | some f => unmarshalField lib fs f acc v) acc ms = .ok acc := by
  induction ms with
  | nil => rfl
  | cons p ms ih =>
      obtain ⟨k, j⟩ := p
      have hk : findField lib fs k = none := h (k, j) (List.mem_cons_self _ _)
      simp only [storeMembers, hk]
      exact ih (fun q hq => h q (List.mem_cons_of_mem _ hq))

/-- A field other than the one stored into keeps its value. -/
theorem unmarshalField_lookup (lib : Lib) (g : String) :
    ∀ (fs : Fields) (f : String) (acc acc' : List (String × GoVal)) (j : JSON),
      g ≠ f → unmarshalField lib fs f acc j = .ok acc' → acc'.lookup g = acc.lookup g
  | .nil, f, acc, acc', j, _, h => by
      simp only [unmarshalField, Except.ok.injEq] at h
      rw [h]
  | .cons n tag t rest, f, acc, acc', j, hg, h => by
      simp only [unmarshalField] at h
      by_cases hn : n = f
      · simp only [hn, if_true] at h
        cases hu : unmarshal lib t ((acc.lookup f).getD (zero t)) j with
        | error e => simp [hu] at h
        | ok v =>
            simp only [hu, Except.ok.injEq] at h
            rw [← h, lookup_setField acc f g v hg]
      · simp only [hn, if_false] at h
        exact unmarshalField_lookup lib g rest f acc acc' j hg h

/-- A field that no member of the object selects keeps its value. -/
theorem storeMembers_field_untouched (lib : Lib) (fs : Fields) (g : String)
    (ms : List (String × JSON)) (hsel : ∀ p ∈ ms, findField lib fs p.1 ≠ some g)
    (acc r : List (String × GoVal))
    (h : storeMembers
      (fun acc k v =>
        match findField lib fs k with
        | none => .ok acc
        | some f => unmarshalField lib fs f acc v) acc ms = .ok r) :
    r.lookup g = acc.lookup g := by
  refine storeMembers_invariant _ (fun a => a.lookup g = acc.lookup g) ms ?_ acc r rfl h
  intro a k j a' hm ha hs
  simp only at hs
  cases hf : findField lib fs k with
  | none =>
      simp only [hf, Except.ok.injEq] at hs
      rw [← hs]
      exact ha
  | some f =>
      simp only [hf] at hs
      have hne : g ≠ f := fun e => hsel (k, j) hm (by rw [hf, e])
      rw [unmarshalField_lookup lib g fs f a a' j hne hs]
      exact ha

end Gonhk

/-! ## C8: responses with status 200 -/

namespace Gonhk

/-- With status 200 the three callers of `decoder` return what `Decode` yields
for their target type. -/
theorem getNhk_200 (lib : Lib) (w : World) (url : String) (res : Response) (b : Bytes)
    (h : w.respond url = .ok res) (hb : res.Body = .ok b) (hs : res.StatusCode = 200) :
    (getNhkList lib w url).2
        = (match (NewDecoder b).Decode lib (.ptr NhkList) .nil with
          | .error err => .ret (.nil, some err)
          | .ok result => .ret (result, none))
    ∧ (getNhkDescriptionList lib w url).2
        = (match (NewDecoder b).Decode lib (.ptr NhkDescriptionList) .nil with
          | .error err => .ret (.nil, some err)
          | .ok result => .ret (result, none))
    ∧ (getNhkNowOnAirList lib w url).2
        = (match (NewDecoder b).Decode lib (.ptr NhkNowOnAirList) .nil with
          | .error err => .ret (.nil, some err)
          | .ok result => .ret (result, none)) := by
  simp [getNhkList_eq, getNhkDescriptionList_eq, getNhkNowOnAirList_eq,
    decoder_ok lib w url res b h hb hs]

end Gonhk

/-! ## C9: collection fields whose key is missing -/

namespace Gonhk

/-- The store of an object into a struct leaves a field that no key of the
object selects as it was. -/
theorem unmarshal_struct_untouched (lib : Lib) (n : String) (fs : Fields) (g : String)
    (cur : List (String × GoVal)) (ms : List (String × JSON)) (v : GoVal)
    (hdec : unmarshal lib (.struct n fs) (.struct cur) (.obj ms) = .ok v)
    (hsel : ∀ p ∈ ms, selects lib (.struct n fs) p.1 g = false) :
    v.field g = (GoVal.struct cur).field g := by
  have hs : ∀ p ∈ ms, findField lib fs p.1 ≠ some g := by
    intro p hp hf
    have := hsel p hp
    simp [selects, GoType.fields, hf] at this
  simp only [unmarshal] at hdec
  cases hr : storeMembers (fun acc k v =>
      match findField lib fs k with
      | none => .ok acc
      | some f => unmarshalField lib fs f acc v) cur ms with
  | error e => simp [hr] at hdec
  | ok r =>
      simp only [hr, Except.ok.injEq] at hdec
      rw [← hdec]
      simp only [GoVal.field, storeMembers_field_untouched lib fs g ms hs cur r hr]

/-- The store of an object into a nil pointer to a struct leaves a field that
no key of the object selects at its zero value. -/
theorem unmarshal_ptr_struct_untouched (lib : Lib) (n : String) (fs : Fields) (g : String)
    (ms : List (String × JSON)) (v : GoVal)
    (hdec : unmarshal lib (.ptr (.struct n fs)) .nil (.obj ms) = .ok v)
    (hsel : ∀ p ∈ ms, selects lib (.struct n fs) p.1 g = false) :
    ∃ s, v = .ptr s ∧ s.field g = (zero (.struct n fs)).field g := by
  have hs : ∀ p ∈ ms, findField lib fs p.1 ≠ some g := by
    intro p hp hf
    have := hsel p hp
    simp [selects, GoType.fields, hf] at this
  rw [unmarshal_ptr_struct] at hdec
  simp only at hdec
  cases hr : storeMembers (fun acc k v =>
      match findField lib fs k with
      | none => .ok acc
      | some f => unmarshalField lib fs f acc v) (zeroFields fs) ms with
  | error e => simp [hr] at hdec
  | ok r =>
      simp only [hr, Except.ok.injEq] at hdec
      refine ⟨.struct r, hdec.symm, ?_⟩
      simp only [GoVal.field, zero,
        storeMembers_field_untouched lib fs g ms hs (zeroFields fs) r hr]

/-- The elements of a slice decoded from an array into a nil slice are, one by
one, the stores of the elements of the array into the zero value. -/
theorem storeElems_fresh (store : GoVal → JSON → Except GoError GoVal) (z : GoVal)
    (xs : List JSON) (vs : List GoVal) (h : storeElems store z [] xs = .ok vs) :
    List.Forall₂ (fun x v => store z x = .ok v) xs vs := by
  induction xs generalizing vs with
  | nil =>
      simp only [storeElems, Except.ok.injEq] at h
      rw [← h]
      exact List.Forall₂.nil
  | cons x xs ih =>
      simp only [storeElems] at h
      cases hx : store z x with
      | error e => simp [hx] at h
      | ok v =>
          simp only [hx] at h
          cases hr : storeElems store z [] xs with
          | error e => simp [hr] at h
          | ok r =>
              simp only [hr, Except.ok.injEq] at h
              rw [← h]
              exact List.Forall₂.cons hx (ih r hr)

/-- Every entry of a map decoded from an object into a nil map is the store of
a member with that key into the zero value. -/
theorem unmarshal_map_fresh (lib : Lib) (t : GoType) (ms : List (String × JSON)) (v : GoVal)
    (h : unmarshal lib (.map t) .nil (.obj ms) = .ok v) :
    ∃ kvs, v = .map kvs ∧ ∀ k x, kvs.lookup k = some x →
      ∃ j, (k, j) ∈ ms ∧ unmarshal lib t (zero t) j = .ok x := by
  simp only [unmarshal] at h
  cases hr : storeMembers
      (fun acc k v =>
        match unmarshal lib t (zero t) v with
        | .error e => .error e
        | .ok x => .ok (mapSet acc k x)) [] ms with
  | error e => simp [hr] at h
  | ok r =>
      simp only [hr, Except.ok.injEq] at h
      refine ⟨r, h.symm, ?_⟩
      refine storeMembers_invariant _
        (fun a => ∀ k x, a.lookup k = some x →
          ∃ j, (k, j) ∈ ms ∧ unmarshal lib t (zero t) j = .ok x) ms ?_ [] r ?_ hr
      · intro a k j a' hm ha hs k' x hl
        simp only at hs
        cases hu : unmarshal lib t (zero t) j with
        | error e => simp [hu] at hs
        | ok y =>
            simp only [hu, Except.ok.injEq] at hs
            rw [← hs, lookup_mapSet] at hl
            by_cases hk : k' = k
            · simp only [hk, if_true, Option.some.injEq] at hl
              exact ⟨j, hk ▸ hm, hl ▸ hu⟩
            · simp only [hk, if_false] at hl
              exact ha k' x hl
      · intro k x hl
        simp [List.lookup] at hl

/-- A slice of pointers decoded from an array into a nil slice holds, element by
element, the store of the element of the array into a nil pointer. -/
theorem unmarshal_slice_fresh (lib : Lib) (t : GoType) (xs : List JSON) (v : GoVal)
    (h : unmarshal lib (.slice (.ptr t)) .nil (.arr xs) = .ok v) :
    ∃ vs, v = .slice vs
      ∧ List.Forall₂ (fun x p => unmarshal lib (.ptr t) .nil x = .ok p) xs vs := by
  have hz : zero (.ptr t) = .nil := by simp [zero]
  have hu : unmarshal lib (.slice (.ptr t)) .nil (.arr xs)
      = match storeElems (unmarshal lib (.ptr t)) .nil [] xs with
        | .error e => .error e
        | .ok vs => .ok (.slice vs) := by
    simp only [unmarshal, hz]
  rw [hu] at h
  cases hr : storeElems (unmarshal lib (.ptr t)) .nil [] xs with
  | error e => simp [hr] at h
  | ok r =>
      simp only [hr, Except.ok.injEq] at h
      exact ⟨r, h.symm, storeElems_fresh _ _ xs r hr⟩

end Gonhk

namespace Gonhk

/-- Every type with a collection field is a struct type. -/
theorem collectionFields_struct (tg : GoType × String) (h : tg ∈ collectionFields) :
    ∃ n fs, tg.1 = .struct n fs ∧ (zero (.struct n fs)).field tg.2 = .nil := by
  simp only [collectionFields, List.mem_cons, List.mem_singleton, List.not_mem_nil,
    or_false] at h
  rcases h with rfl | rfl | rfl | rfl | rfl | rfl
  · exact ⟨_, _, rfl, rfl⟩
  · exact ⟨_, _, rfl, rfl⟩
  · exact ⟨_, _, rfl, rfl⟩
  · exact ⟨_, _, rfl, rfl⟩
  · exact ⟨_, _, rfl, rfl⟩
  · exact ⟨_, _, rfl, rfl⟩

/-- C9 (as amended). A collection field whose JSON key is missing is left as it
was, and in a fresh value it is the nil (absent) map or slice, of length 0, not
an empty container.  For every collection field (the List map of NhkList and of
NhkDescriptionList, the NowOnAirList map of NhkNowOnAirList, the Genres and
Hashtags slices of NhkProgram and NhkDescription): it is nil in the zero value;
the store of an object none of whose keys selects the field leaves the field as
it was; stored into a nil pointer, such an object yields a struct whose field is
nil.  With status 200, when one of the three operations returns a result for
an object body none of whose keys selects the map of the result type, that map
is nil.  And the programs and descriptions of a result are such fresh stores:
every entry of a map decoded into a nil map is the store of a member of the
object into the zero value, and every element of a slice of pointers decoded
into a nil slice is the store of the element of the array into a nil pointer. -/
theorem C9_missing_key_leaves_collection_nil (lib : Lib) :
    (∀ tg ∈ collectionFields,
      (zero tg.1).field tg.2 = .nil ∧ ((zero tg.1).field tg.2).len = 0)
    ∧ (∀ tg ∈ collectionFields, ∀ cur ms v,
        unmarshal lib tg.1 (.struct cur) (.obj ms) = .ok v →
        (∀ p ∈ ms, selects lib tg.1 p.1 tg.2 = false) →
        v.field tg.2 = (GoVal.struct cur).field tg.2)
    ∧ (∀ tg ∈ collectionFields, ∀ ms v,
        unmarshal lib (.ptr tg.1) .nil (.obj ms) = .ok v →
        (∀ p ∈ ms, selects lib tg.1 p.1 tg.2 = false) →
        ∃ s, v = .ptr s ∧ s.field tg.2 = .nil ∧ (s.field tg.2).len = 0)
    ∧ (∀ (w : World) (url : String) (res : Response) (ms : List (String × JSON)),
        w.respond url = .ok res → res.Body = .ok ⟨.ok (.obj ms)⟩ → res.StatusCode = 200 →
        ∀ op ∈ [(getNhkList, NhkList, "List"), (getNhkDescriptionList, NhkDescriptionList, "List"),
            (getNhkNowOnAirList, NhkNowOnAirList, "NowOnAirList")],
          ∀ result, (op.1 lib w url).2 = .ret (result, none) →
            (∀ p ∈ ms, selects lib op.2.1 p.1 op.2.2 = false) →
            ∃ s, result = .ptr s ∧ s.field op.2.2 = .nil ∧ (s.field op.2.2).len = 0)
    ∧ (∀ (t : GoType) (ms : List (String × JSON)) (v : GoVal),
        unmarshal lib (.map t) .nil (.obj ms) = .ok v →
        ∃ kvs, v = .map kvs ∧ ∀ k x, kvs.lookup k = some x →
          ∃ j, (k, j) ∈ ms ∧ unmarshal lib t (zero t) j = .ok x)
    ∧ (∀ (t : GoType) (xs : List JSON) (v : GoVal),
        unmarshal lib (.slice (.ptr t)) .nil (.arr xs) = .ok v →
        ∃ vs, v = .slice vs
          ∧ List.Forall₂ (fun x p => unmarshal lib (.ptr t) .nil x = .ok p) xs vs) := by
  have fresh : ∀ tg ∈ collectionFields, ∀ ms v,
      unmarshal lib (.ptr tg.1) .nil (.obj ms) = .ok v →
      (∀ p ∈ ms, selects lib tg.1 p.1 tg.2 = false) →
      ∃ s, v = .ptr s ∧ s.field tg.2 = .nil ∧ (s.field tg.2).len = 0 := by
    intro tg htg ms v hdec hsel
    obtain ⟨n, fs, ht, hz⟩ := collectionFields_struct tg htg
    rw [ht] at hdec hsel
    obtain ⟨s, hv, hf⟩ := unmarshal_ptr_struct_untouched lib n fs tg.2 ms v hdec hsel
    refine ⟨s, hv, ?_, ?_⟩
    · rw [hf, hz]
    · rw [hf, hz]
      rfl
  refine ⟨?_, ?_, fresh, ?_, unmarshal_map_fresh lib, unmarshal_slice_fresh lib⟩
  · intro tg htg
    obtain ⟨n, fs, ht, hz⟩ := collectionFields_struct tg htg
    rw [ht, hz]
    exact ⟨rfl, rfl⟩
  · intro tg htg cur ms v hdec hsel
    obtain ⟨n, fs, ht, _⟩ := collectionFields_struct tg htg
    rw [ht] at hdec hsel
    exact unmarshal_struct_untouched lib n fs tg.2 cur ms v hdec hsel
  · intro w url res ms h hb hs op hop result hres hsel
    obtain ⟨h1, h2, h3⟩ := getNhk_200 lib w url res ⟨.ok (.obj ms)⟩ h hb hs
    simp only [List.mem_cons, List.mem_singleton, List.not_mem_nil, or_false] at hop
    rcases hop with rfl | rfl | rfl
    · simp only [Decoder.Decode, NewDecoder] at h1
      rw [h1] at hres
      cases hd : unmarshal lib (.ptr NhkList) .nil (.obj ms) with
      | error e => simp [hd] at hres
      | ok v =>
          simp only [hd, Run.ret.injEq, Prod.mk.injEq, and_true] at hres
          exact fresh (NhkList, "List") (by simp [collectionFields]) ms result (hres ▸ hd) hsel
    · simp only [Decoder.Decode, NewDecoder] at h2
      rw [h2] at hres
      cases hd : unmarshal lib (.ptr NhkDescriptionList) .nil (.obj ms) with
      | error e => simp [hd] at hres
      | ok v =>
          simp only [hd, Run.ret.injEq, Prod.mk.injEq, and_true] at hres
          exact fresh (NhkDescriptionList, "List") (by simp [collectionFields]) ms result
            (hres ▸ hd) hsel
    · simp only [Decoder.Decode, NewDecoder] at h3
      rw [h3] at hres
      cases hd : unmarshal lib (.ptr NhkNowOnAirList) .nil (.obj ms) with
      | error e => simp [hd] at hres
      | ok v =>
          simp only [hd, Run.ret.injEq, Prod.mk.injEq, and_true] at hres
          exact fresh (NhkNowOnAirList, "NowOnAirList") (by simp [collectionFields]) ms result
            (hres ▸ hd) hsel

/-- C9 (as amended), at the body `{}` with status 200: the List map of the
result of getNhkList is nil. -/
theorem C9_missing_key_witness :
    ∃ s, GoVal.ptr (.struct [("List", .nil)]) = .ptr s ∧ s.field "List" = .nil
      ∧ (s.field "List").len = 0 :=
  (C9_missing_key_leaves_collection_nil Lib.sample).2.2.2.1
    (World.answering 200 (.ok (.obj []))) "u" ⟨200, .ok ⟨.ok (.obj [])⟩⟩ [] rfl rfl rfl
    (getNhkList, NhkList, "List") (by simp) (.ptr (.struct [("List", .nil)])) rfl (by simp)

/-- C9 as stated fails.  With status 200 the body `{}` yields an NhkList whose
List map is nil, not the empty map; and the body `{"list":{"g1":[{"id":"1"}]}}`
yields a program whose Genres slice is nil, not the empty slice. -/
theorem C9_counterexample :
    (getNhkList Lib.sample (World.answering 200 (.ok (.obj []))) "u").2
        = .ret (.ptr (.struct [("List", .nil)]), none)
    ∧ GoVal.nil ≠ GoVal.map []
    ∧ (∃ s p, (getNhkList Lib.sample (World.answering 200
          (.ok (.obj [("list", .obj [("g1", .arr [.obj [("id", .str "1")]])])]))) "u").2
          = .ret (.ptr s, none)
        ∧ (s.field "List").index "g1" = some (.slice [.ptr p])
        ∧ p.field "Id" = .str "1" ∧ p.field "Genres" = .nil)
    ∧ GoVal.nil ≠ GoVal.slice [] := by
  refine ⟨rfl, ?_, ⟨_, _, rfl, rfl, rfl, rfl⟩, ?_⟩
  · intro h
    cases h
  · intro h
    cases h

end Gonhk

/-! ## C6: the query parameter `key` -/

namespace Gonhk

theorem takeWhile_ne_self (x : Char) (l : List Char) (h : x ∉ l) :
    l.takeWhile (fun c => c != x) = l := by
  induction l with
  | nil => rfl
  | cons c l ih =>
      have hc : c ≠ x := fun e => h (e ▸ List.mem_cons_self _ _)
      have hl : x ∉ l := fun e => h (List.mem_cons_of_mem _ e)
      simp [List.takeWhile_cons, hc, ih hl]

theorem dropWhile_ne_append (x : Char) (l r : List Char) (h : x ∉ l) :
    (l ++ x :: r).dropWhile (fun c => c != x) = x :: r := by
  induction l with
  | nil => simp [List.dropWhile_cons]
  | cons c l ih =>
      have hc : c ≠ x := fun e => h (e ▸ List.mem_cons_self _ _)
      have hl : x ∉ l := fun e => h (List.mem_cons_of_mem _ e)
      simp [List.dropWhile_cons, hc, ih hl]

theorem splitOnChar_absent (x : Char) (l : List Char) (h : x ∉ l) :
    splitOnChar x l = [l] := by
  induction l with
  | nil => rfl
  | cons c l ih =>
      have hc : c ≠ x := fun e => h (e ▸ List.mem_cons_self _ _)
      have hl : x ∉ l := fun e => h (List.mem_cons_of_mem _ e)
      simp [splitOnChar, hc, ih hl]

theorem unescape_plain (l : List Char) (h₁ : '%' ∉ l) (h₂ : '+' ∉ l) :
    unescape l = some l := by
  induction l with
  | nil => rfl
  | cons c l ih =>
      have hc₁ : c ≠ '%' := fun e => h₁ (e ▸ List.mem_cons_self _ _)
      have hc₂ : c ≠ '+' := fun e => h₂ (e ▸ List.mem_cons_self _ _)
      have hl₁ : '%' ∉ l := fun e => h₁ (List.mem_cons_of_mem _ e)
      have hl₂ : '+' ∉ l := fun e => h₂ (List.mem_cons_of_mem _ e)
      unfold unescape
      simp only [hc₁, hc₂, if_false, ih hl₁ hl₂]

theorem uriChars_plain (l : List Char) (h : ∀ c ∈ l, (isUnreserved c || isReserved c) = true)
    (hp : '%' ∉ l) : uriChars l = true := by
  induction l with
  | nil => rfl
  | cons c l ih =>
      have hc : c ≠ '%' := fun e => hp (e ▸ List.mem_cons_self _ _)
      have hl : '%' ∉ l := fun e => hp (List.mem_cons_of_mem _ e)
      have h1 := h c (List.mem_cons_self _ _)
      have h2 := ih (fun d hd => h d (List.mem_cons_of_mem _ hd)) hl
      unfold uriChars
      simp only [hc, if_false, h1, h2, Bool.and_self]

/-- No unreserved character is a delimiter or starts an escape. -/
theorem unreserved_not_special (l : List Char) (h : ∀ c ∈ l, isUnreserved c = true) :
    '%' ∉ l ∧ '#' ∉ l ∧ '?' ∉ l ∧ '&' ∉ l ∧ '=' ∉ l ∧ '+' ∉ l := by
  refine ⟨?_, ?_, ?_, ?_, ?_, ?_⟩ <;> intro hm <;> exact absurd (h _ hm) (by decide)

end Gonhk

namespace Gonhk

/-- A URL made of a path of unreserved characters, slashes and colons that
starts with the scheme, followed by `?key=` and a value of unreserved
characters, is well formed and its parameter `key` is that value. -/
theorem key_query (P K : List Char)
    (hP : ∀ c ∈ P, (isUnreserved c || c == '/' || c == ':') = true)
    (hpre : "http://".data.isPrefixOf P = true)
    (hK : ∀ c ∈ K, isUnreserved c = true) :
    wellFormedURL (String.mk (P ++ ('?' :: 'k' :: 'e' :: 'y' :: '=' :: K))) = true
    ∧ queryParam (String.mk (P ++ ('?' :: 'k' :: 'e' :: 'y' :: '=' :: K))) "key"
        = some (String.mk K) := by
  obtain ⟨kPct, kHash, _, kAmp, _, kPlus⟩ := unreserved_not_special K hK
  have pHash : '#' ∉ P := fun hm => absurd (hP _ hm) (by decide)
  have pQuest : '?' ∉ P := fun hm => absurd (hP _ hm) (by decide)
  have pPct : '%' ∉ P := fun hm => absurd (hP _ hm) (by decide)
  have qHash : '#' ∉ ('?' :: 'k' :: 'e' :: 'y' :: '=' :: K) := by
    simp only [List.mem_cons, not_or]
    exact ⟨by decide, by decide, by decide, by decide, by decide, kHash⟩
  have qPct : '%' ∉ ('?' :: 'k' :: 'e' :: 'y' :: '=' :: K) := by
    simp only [List.mem_cons, not_or]
    exact ⟨by decide, by decide, by decide, by decide, by decide, kPct⟩
  have qAmp : '&' ∉ ('k' :: 'e' :: 'y' :: '=' :: K) := by
    simp only [List.mem_cons, not_or]
    exact ⟨by decide, by decide, by decide, by decide, kAmp⟩
  have wHash : '#' ∉ P ++ ('?' :: 'k' :: 'e' :: 'y' :: '=' :: K) := by
    rw [List.mem_append]
    exact fun h => h.elim pHash qHash
  have wPct : '%' ∉ P ++ ('?' :: 'k' :: 'e' :: 'y' :: '=' :: K) := by
    rw [List.mem_append]
    exact fun h => h.elim pPct qPct
  constructor
  · have h1 : "http://".data.isPrefixOf (P ++ ('?' :: 'k' :: 'e' :: 'y' :: '=' :: K)) = true := by
      rw [List.isPrefixOf_iff_prefix] at hpre ⊢
      exact hpre.trans (List.prefix_append _ _)
    have h2 : uriChars (P ++ ('?' :: 'k' :: 'e' :: 'y' :: '=' :: K)) = true := by
      apply uriChars_plain _ _ wPct
      intro c hc
      rw [List.mem_append] at hc
      rcases hc with hc | hc
      · have := hP c hc
        simp only [Bool.or_eq_true, beq_iff_eq] at this ⊢
        rcases this with (h | h) | h
        · exact Or.inl h
        · exact Or.inr (h ▸ by decide)
        · exact Or.inr (h ▸ by decide)
      · simp only [List.mem_cons] at hc
        rcases hc with h | h | h | h | h | h
        · exact h ▸ by decide
        · exact h ▸ by decide
        · exact h ▸ by decide
        · exact h ▸ by decide
        · exact h ▸ by decide
        · simp [hK c h]
    have h3 : (P ++ ('?' :: 'k' :: 'e' :: 'y' :: '=' :: K)).count '#' ≤ 1 := by
      rw [List.count_eq_zero_of_not_mem wHash]
      exact Nat.zero_le 1
    simp only [wellFormedURL, h1, h2, h3, decide_True, Bool.and_self]
  · have hq : queryOf (P ++ ('?' :: 'k' :: 'e' :: 'y' :: '=' :: K))
        = some ('k' :: 'e' :: 'y' :: '=' :: K) := by
      simp only [queryOf, takeWhile_ne_self '#' _ wHash, dropWhile_ne_append '?' P _ pQuest]
    have hu : unescape K = some K := unescape_plain K kPct kPlus
    simp only [queryParam, hq, splitOnChar_absent '&' _ qAmp]
    simp [List.find?, List.takeWhile_cons, List.dropWhile_cons, unescape, hu]

end Gonhk

namespace Gonhk

/-- The lemma `key_query` for the URLs of the program: the base address, a rest
of the path, and the key. -/
theorem key_query_base (R : List Char) (k : String)
    (hR : R.all (fun c => isUnreserved c || c == '/' || c == ':') = true)
    (hk : k.data.all isUnreserved = true) (u : String)
    (hu : u.data = "http://api.nhk.or.jp/".data ++ R ++ ".json?key=".data ++ k.data) :
    wellFormedURL u = true ∧ queryParam u "key" = some k := by
  have hP : ∀ c ∈ "http://api.nhk.or.jp/".data ++ R ++ ".json".data,
      (isUnreserved c || c == '/' || c == ':') = true := by
    have hb : "http://api.nhk.or.jp/".data.all
        (fun c => isUnreserved c || c == '/' || c == ':') = true := by decide
    have hj : ".json".data.all (fun c => isUnreserved c || c == '/' || c == ':') = true := by
      decide
    rw [List.all_eq_true] at hR hb hj
    intro c hc
    simp only [List.mem_append] at hc
    rcases hc with (hc | hc) | hc
    · exact hb c hc
    · exact hR c hc
    · exact hj c hc
  have hpre : "http://".data.isPrefixOf ("http://api.nhk.or.jp/".data ++ R ++ ".json".data)
      = true := by
    rw [List.isPrefixOf_iff_prefix, List.append_assoc]
    have h0 : "http://".data.isPrefixOf "http://api.nhk.or.jp/".data = true := by decide
    rw [List.isPrefixOf_iff_prefix] at h0
    exact h0.trans (List.prefix_append _ _)
  have hK : ∀ c ∈ k.data, isUnreserved c = true := by
    rw [List.all_eq_true] at hk
    exact hk
  have hs : u = String.mk (("http://api.nhk.or.jp/".data ++ R ++ ".json".data)
      ++ ('?' :: 'k' :: 'e' :: 'y' :: '=' :: k.data)) := by
    apply String.ext
    rw [hu]
    have hj : ".json?key=".data = ".json".data ++ ['?', 'k', 'e', 'y', '='] := by decide
    rw [hj]
    simp only [List.append_assoc, List.cons_append, List.nil_append]
  rw [hs]
  exact key_query _ _ hP hpre hK

/-- C6 (as amended). For every API key k the Client returned by NewClient(k)
holds k.  When k, version, area, service, genre, date and id consist of
unreserved URL characters (letters, digits, `-`, `.`, `_`, `~`), the one URL
that each of the four operations requests is well formed and its query
parameter key has the value k.  The program does not escape what it puts into
the URL. -/
theorem C6_key_query_parameter (lib : Lib) (w : World)
    (k version area service genre date id : String)
    (hk : k.data.all isUnreserved = true) (hversion : version.data.all isUnreserved = true)
    (harea : area.data.all isUnreserved = true)
    (hservice : service.data.all isUnreserved = true)
    (hgenre : genre.data.all isUnreserved = true) (hdate : date.data.all isUnreserved = true)
    (hid : id.data.all isUnreserved = true) :
    (NewClient k).apikey = k
    ∧ (∃ u, (Client.ProgramList lib w (NewClient k) version area service date).1.requests
          = w.requests ++ [u] ∧ wellFormedURL u = true ∧ queryParam u "key" = some k)
    ∧ (∃ u, (Client.ProgramGenre lib w (NewClient k) version area service genre date).1.requests
          = w.requests ++ [u] ∧ wellFormedURL u = true ∧ queryParam u "key" = some k)
    ∧ (∃ u, (Client.ProgramInfo lib w (NewClient k) version area service id).1.requests
          = w.requests ++ [u] ∧ wellFormedURL u = true ∧ queryParam u "key" = some k)
    ∧ (∃ u, (Client.NowOnAir lib w (NewClient k) version area service).1.requests
          = w.requests ++ [u] ∧ wellFormedURL u = true ∧ queryParam u "key" = some k) := by
  have up : ∀ (l : List Char), l.all isUnreserved = true →
      l.all (fun c => isUnreserved c || c == '/' || c == ':') = true := by
    intro l hl
    rw [List.all_eq_true] at hl ⊢
    intro c hc
    simp [hl c hc]
  have h1 := up _ hversion
  have h2 := up _ harea
  have h3 := up _ hservice
  have h4 := up _ hgenre
  have h5 := up _ hdate
  have h6 := up _ hid
  refine ⟨rfl, ?_, ?_, ?_, ?_⟩
  · refine ⟨("http://api.nhk.or.jp/" ++ version ++ "/pg/list/" ++ area ++ "/" ++ service ++ "/" ++ date
      ++ ".json?key=" ++ k), ?_, key_query_base
      (version.data ++ "/pg/list/".data ++ area.data ++ "/".data ++ service.data ++ "/".data
        ++ date.data) k ?_ hk _ ?_⟩
    · simp only [Client.ProgramList, NewClient, Sprintf_list, getNhkList_world]
    · have l1 : "/pg/list/".data.all (fun c => isUnreserved c || c == '/' || c == ':') = true := by
        decide
      have l2 : "/".data.all (fun c => isUnreserved c || c == '/' || c == ':') = true := by decide
      simp only [List.all_append, h1, h2, h3, h5, l1, l2, Bool.and_self]
    · simp only [String.data_append, List.append_assoc]
  · refine ⟨("http://api.nhk.or.jp/" ++ version ++ "/pg/genre/" ++ area ++ "/" ++ service ++ "/" ++ genre
      ++ "/" ++ date ++ ".json?key=" ++ k), ?_, key_query_base
      (version.data ++ "/pg/genre/".data ++ area.data ++ "/".data ++ service.data ++ "/".data
        ++ genre.data ++ "/".data ++ date.data) k ?_ hk _ ?_⟩
    · simp only [Client.ProgramGenre, NewClient, Sprintf_genre, getNhkList_world]
    · have l1 : "/pg/genre/".data.all (fun c => isUnreserved c || c == '/' || c == ':') = true := by
        decide
      have l2 : "/".data.all (fun c => isUnreserved c || c == '/' || c == ':') = true := by decide
      simp only [List.all_append, h1, h2, h3, h4, h5, l1, l2, Bool.and_self]
    · simp only [String.data_append, List.append_assoc]
  · refine ⟨("http://api.nhk.or.jp/" ++ version ++ "/pg/info/" ++ area ++ "/" ++ service ++ "/" ++ id
      ++ ".json?key=" ++ k), ?_, key_query_base
      (version.data ++ "/pg/info/".data ++ area.data ++ "/".data ++ service.data ++ "/".data
        ++ id.data) k ?_ hk _ ?_⟩
    · simp only [Client.ProgramInfo, NewClient, Sprintf_info, getNhkDescriptionList_world]
    · have l1 : "/pg/info/".data.all (fun c => isUnreserved c || c == '/' || c == ':') = true := by
        decide
      have l2 : "/".data.all (fun c => isUnreserved c || c == '/' || c == ':') = true := by decide
      simp only [List.all_append, h1, h2, h3, h6, l1, l2, Bool.and_self]
    · simp only [String.data_append, List.append_assoc]
  · refine ⟨("http://api.nhk.or.jp/" ++ version ++ "/pg/now/" ++ area ++ "/" ++ service
      ++ ".json?key=" ++ k), ?_, key_query_base
      (version.data ++ "/pg/now/".data ++ area.data ++ "/".data ++ service.data) k ?_ hk _ ?_⟩
    · simp only [Client.NowOnAir, NewClient, Sprintf_now, getNhkNowOnAirList_world]
    · have l1 : "/pg/now/".data.all (fun c => isUnreserved c || c == '/' || c == ':') = true := by
        decide
      have l2 : "/".data.all (fun c => isUnreserved c || c == '/' || c == ':') = true := by decide
      simp only [List.all_append, h1, h2, h3, l1, l2, Bool.and_self]
    · simp only [String.data_append, List.append_assoc]

/-- C6 (as amended), at the key `testApikey`. -/
theorem C6_key_query_parameter_witness :
    (NewClient "testApikey").apikey = "testApikey"
    ∧ ∃ u, (Client.ProgramList Lib.sample (World.answering 200 (.ok (.obj [])))
          (NewClient "testApikey") "v1" "130" "g1" "2014-08-01").1.requests = [] ++ [u]
        ∧ wellFormedURL u = true ∧ queryParam u "key" = some "testApikey" :=
  ⟨(C6_key_query_parameter Lib.sample (World.answering 200 (.ok (.obj []))) "testApikey"
      "v1" "130" "g1" "0000" "2014-08-01" "2014080112345" (by decide) (by decide) (by decide)
      (by decide) (by decide) (by decide) (by decide)).1,
   (C6_key_query_parameter Lib.sample (World.answering 200 (.ok (.obj []))) "testApikey"
      "v1" "130" "g1" "0000" "2014-08-01" "2014080112345" (by decide) (by decide) (by decide)
      (by decide) (by decide) (by decide) (by decide)).2.1⟩

/-- C6 as stated fails: with the API key `a&b` the URL that ProgramList requests
carries the query parameter key with the value `a`, not `a&b`. -/
theorem C6_counterexample :
    (Client.ProgramList Lib.sample (World.answering 200 (.ok (.obj []))) (NewClient "a&b")
        "v1" "130" "g1" "2014-08-01").1.requests
      = ["http://api.nhk.or.jp/v1/pg/list/130/g1/2014-08-01.json?key=a&b"]
    ∧ queryParam "http://api.nhk.or.jp/v1/pg/list/130/g1/2014-08-01.json?key=a&b" "key"
      = some "a"
    ∧ queryParam "http://api.nhk.or.jp/v1/pg/list/130/g1/2014-08-01.json?key=a&b" "key"
      ≠ some "a&b" := by
  refine ⟨by rfl, by decide, by decide⟩

end Gonhk

/-! ## Lemmas: the store of an error envelope -/

namespace Gonhk

/-- A key selects no other field of NhkError than `Code` and `Message`. -/
theorem findField_NhkError (lib : Lib) (k f : String)
    (h : findField lib (fields [("Code", "code", .int), ("Message", "message", .string)]) k
      = some f) : f = "Code" ∨ f = "Message" := by
  simp only [findField, findExact, findFold, fields] at h
  by_cases h1 : "code" = k
  · simp [h1] at h
    subst h
    simp
  · by_cases h2 : "message" = k
    · simp [h1, h2] at h
      subst h
      simp
    · simp only [h1, h2, if_false] at h
      by_cases h3 : lib.equalFold "code" k = true
      · simp [h3] at h
        subst h
        simp
      · by_cases h4 : lib.equalFold "message" k = true
        · simp [h3, h4] at h
          subst h
          simp
        · simp [h3, h4] at h

/-- One member of an envelope that fits, stored into an NhkError whose code is
`a` and whose message is `b`. -/
theorem envelope_step (lib : Lib) (k : String) (j : JSON) (a : Int) (b : String)
    (hfit : (match findField lib (fields [("Code", "code", .int), ("Message", "message", .string)]) k with
      | none => true
      | some f => if f = "Code" then fitsIntField lib j else fitsStringField j) = true) :
    (match findField lib (fields [("Code", "code", .int), ("Message", "message", .string)]) k with
      | none => (.ok [("Code", GoVal.int a), ("Message", GoVal.str b)] :
          Except GoError (List (String × GoVal)))
      | some f => unmarshalField lib
          (fields [("Code", "code", .int), ("Message", "message", .string)]) f
          [("Code", GoVal.int a), ("Message", GoVal.str b)] j)
      = .ok [("Code", GoVal.int ((codeMember lib [(k, j)]).getD a)),
             ("Message", GoVal.str ((messageMember lib [(k, j)]).getD b))] := by
  have hsel : ∀ g, selects lib NhkError k g
      = (findField lib (fields [("Code", "code", .int), ("Message", "message", .string)]) k
          == some g) := fun g => rfl
  cases hf : findField lib (fields [("Code", "code", .int), ("Message", "message", .string)]) k with
  | none =>
      simp [codeMember, messageMember, hsel, hf]
  | some f =>
      simp only [hf] at hfit
      have hu : ∀ f' cur j', unmarshalField lib
          (fields [("Code", "code", .int), ("Message", "message", .string)]) f' cur j'
          = if "Code" = f' then
              (match unmarshal lib .int ((cur.lookup "Code").getD (zero .int)) j' with
                | .error e => .error e
                | .ok v => .ok (setField cur "Code" v))
            else if "Message" = f' then
              (match unmarshal lib .string ((cur.lookup "Message").getD (zero .string)) j' with
                | .error e => .error e
                | .ok v => .ok (setField cur "Message" v))
            else .ok cur := by
        intro f' cur j'
        simp only [fields, unmarshalField]
      rcases findField_NhkError lib k f hf with rfl | rfl
      · simp only [if_true] at hfit
        cases j with
        | null =>
            simp [codeMember, messageMember, hsel, hf, hu, unmarshal, setField, lookup_cons_eq]
        | num n =>
            cases n with
            | integer i =>
                have hi : lib.fitsInt i = true := by simpa [fitsIntField] using hfit
                simp [codeMember, messageMember, hsel, hf, hu, unmarshal, setField,
                  lookup_cons_eq, hi]
            | fractional lit => simp [fitsIntField] at hfit
        | bool x => simp [fitsIntField] at hfit
        | str x => simp [fitsIntField] at hfit
        | arr x => simp [fitsIntField] at hfit
        | obj x => simp [fitsIntField] at hfit
      · simp only [show ¬ ("Message" = "Code") by decide, if_false] at hfit
        cases j with
        | null =>
            simp [codeMember, messageMember, hsel, hf, hu, unmarshal, setField, lookup_cons_eq]
        | str x =>
            simp [codeMember, messageMember, hsel, hf, hu, unmarshal, setField, lookup_cons_eq]
        | num n => simp [fitsStringField] at hfit
        | bool x => simp [fitsStringField] at hfit
        | arr x => simp [fitsStringField] at hfit
        | obj x => simp [fitsStringField] at hfit

theorem codeMember_cons (lib : Lib) (p : String × JSON) (rest : List (String × JSON)) (a : Int) :
    (codeMember lib rest).getD ((codeMember lib [p]).getD a)
      = (codeMember lib (p :: rest)).getD a := by
  simp only [codeMember]
  cases codeMember lib rest <;> simp

theorem messageMember_cons (lib : Lib) (p : String × JSON) (rest : List (String × JSON))
    (b : String) :
    (messageMember lib rest).getD ((messageMember lib [p]).getD b)
      = (messageMember lib (p :: rest)).getD b := by
  simp only [messageMember]
  cases messageMember lib rest <;> simp

/-- The members of an envelope that fits, stored into an NhkError whose code is
`a` and whose message is `b`: the code becomes that of the last integer member
selecting `Code`, the message that of the last string member selecting
`Message`, and each stays as it was when there is no such member. -/
theorem envelope_store (lib : Lib) (fs : List (String × JSON)) :
    ∀ (a : Int) (b : String),
      fitsNhkError lib (.obj fs) = true →
      storeMembers
        (fun acc k v =>
          match findField lib (fields [("Code", "code", .int), ("Message", "message", .string)]) k with
          | none => .ok acc
          | some f => unmarshalField lib
              (fields [("Code", "code", .int), ("Message", "message", .string)]) f acc v)
        [("Code", GoVal.int a), ("Message", GoVal.str b)] fs
      = .ok [("Code", GoVal.int ((codeMember lib fs).getD a)),
             ("Message", GoVal.str ((messageMember lib fs).getD b))] := by
  induction fs with
  | nil =>
      intro a b _
      simp [storeMembers, codeMember, messageMember]
  | cons p rest ih =>
      intro a b hfit
      obtain ⟨k, j⟩ := p
      simp only [fitsNhkError, List.all_cons, Bool.and_eq_true] at hfit
      have hstep := envelope_step lib k j a b hfit.1
      have hrest : fitsNhkError lib (.obj rest) = true := by
        simp only [fitsNhkError]
        exact hfit.2
      simp only [storeMembers, hstep]
      rw [ih _ _ hrest, codeMember_cons, messageMember_cons]

/-- An envelope that fits, stored into a nil `*NhkError`. -/
theorem unmarshal_envelope (lib : Lib) (fs : List (String × JSON))
    (hfit : fitsNhkError lib (.obj fs) = true) :
    unmarshal lib (.ptr NhkError) (zero (.ptr NhkError)) (.obj fs)
      = .ok (.ptr (.struct [("Code", .int ((codeMember lib fs).getD 0)),
          ("Message", .str ((messageMember lib fs).getD ""))])) := by
  have hz : zero (.ptr NhkError) = .nil := by simp [zero]
  have h := envelope_store lib fs 0 "" hfit
  rw [hz]
  simp only [NhkError, unmarshal_ptr_struct]
  have hzf : zeroFields (fields [("Code", "code", .int), ("Message", "message", .string)])
      = [("Code", GoVal.int 0), ("Message", GoVal.str "")] := rfl
  rw [hzf, h]

end Gonhk

/-! ## C2: the error envelope; C4: responses with a status other than 200 -/

namespace Gonhk

/-- C2 (as amended). For every status code s, every integer c and every string
m: when the body is a JSON object whose last member named error is an object
that carries the integer code c and the string message m (see `codeMember` and
`messageMember`: in any order, under the tags or their case foldings, among
other members), and the envelope and the values of the other members of the
body fit a `*NhkError` (see `fitsNhkError`; in particular c fits `int`), apiError
returns the error made by `errors.New` whose text is exactly the status text
followed by the code and the message. -/
theorem C2_apiError_with_envelope (lib : Lib) (s c : Int) (m : String)
    (before after fs : List (String × JSON))
    (hbefore : ∀ p ∈ before, fitsNhkError lib p.2 = true)
    (hafter : ∀ p ∈ after, fitsNhkError lib p.2 = true)
    (hlast : ∀ p ∈ after, p.1 ≠ "error")
    (henv : fitsNhkError lib (.obj fs) = true)
    (hcode : codeMember lib fs = some c) (hmessage : messageMember lib fs = some m) :
    apiError lib (NewDecoder ⟨.ok (.obj (before ++ ("error", .obj fs) :: after))⟩) s
      = .ret (errors.New ("An error occurred during calling NHK API. [status: "
          ++ formatInt s ++ "][code: " ++ formatInt c ++ "][message: " ++ m ++ "]")) := by
  rw [apiError_of_scanned]
  obtain ⟨r₁, hr₁⟩ := errResult_ok lib before hbefore []
  have hstore := unmarshal_envelope lib fs henv
  simp only [hcode, hmessage, Option.getD_some] at hstore
  obtain ⟨r, hr⟩ := errResult_ok lib after hafter
    (mapSet r₁ "error" (.ptr (.struct [("Code", .int c), ("Message", .str m)])))
  have hl : r.lookup "error" = some (.ptr (.struct [("Code", .int c), ("Message", .str m)])) := by
    rw [errResult_untouched lib (.ptr NhkError) "error" after hlast _ r hr, lookup_mapSet]
    rfl
  simp only [unmarshal_map_obj, storeMembers_append, hr₁, storeMembers, hstore, hr, GoVal.index,
    hl]
  have hf : (GoVal.struct [("Code", .int c), ("Message", .str m)]).field "Code" = .int c := rfl
  have hg : (GoVal.struct [("Code", .int c), ("Message", .str m)]).field "Message" = .str m := rfl
  simp only [hf, hg, GoVal.intArg, GoVal.strArg, apiError_text_full]

/-- C2 (as amended), at status 404 and the body
`{"error":{"code":1,"message":"Invalid parameters"}}`. -/
theorem C2_apiError_with_envelope_witness :
    apiError Lib.sample (NewDecoder ⟨.ok (.obj [("error",
        .obj [("code", .num (.integer 1)), ("message", .str "Invalid parameters")])])⟩) 404
      = .ret (errors.New
          "An error occurred during calling NHK API. [status: 404][code: 1][message: Invalid parameters]") :=
  C2_apiError_with_envelope Lib.sample 404 1 "Invalid parameters" [] []
    [("code", .num (.integer 1)), ("message", .str "Invalid parameters")]
    (by simp) (by simp) (by simp) (by decide) (by decide) (by decide)

/-- C2 as stated fails twice.  A body that contains the key error with code 1
and a message, and another member that is a number, yields the type error of
the decoder; so does a body whose code is the integer 2^63, which does not fit
a 64-bit int. -/
theorem C2_counterexample :
    apiError Lib.sample (NewDecoder ⟨.ok (.obj [("error",
        .obj [("code", .num (.integer 1)), ("message", .str "Invalid parameters")]),
        ("status", .num (.integer 404))])⟩) 404
      = .ret (GoError.unmarshalType "number" "gonhk.NhkError")
    ∧ apiError Lib.sample (NewDecoder ⟨.ok (.obj [("error",
        .obj [("code", .num (.integer 9223372036854775808)), ("message", .str "x")])])⟩) 404
      = .ret (GoError.unmarshalType "number 9223372036854775808" "int") := by
  constructor <;> rfl

/-- C4: with status 404 and the body `{"error":null}` each of getNhkList,
getNhkDescriptionList and getNhkNowOnAirList, and with it each of the four
operations of a Client, faults with the nil pointer dereference of apiError: it
does not return nil together with an error.  (On every other body with a
status other than 200 the operation returns nil and the error of apiError, see
`non_200_outcome`.) -/
theorem C4_non_200_faults_on_null_envelope (lib : Lib) (url : String) :
    (∀ op ∈ [getNhkList, getNhkDescriptionList, getNhkNowOnAirList],
      (op lib (World.answering 404 (.ok (.obj [("error", .null)]))) url).2
          = .panic nilDereference
        ∧ ∀ e, (op lib (World.answering 404 (.ok (.obj [("error", .null)]))) url).2
          ≠ .ret (.nil, some e))
    ∧ (∀ (c : Client) (version area service genre date id : String),
        (c.ProgramList lib (World.answering 404 (.ok (.obj [("error", .null)])))
            version area service date).2 = .panic nilDereference
        ∧ (c.ProgramGenre lib (World.answering 404 (.ok (.obj [("error", .null)])))
            version area service genre date).2 = .panic nilDereference
        ∧ (c.ProgramInfo lib (World.answering 404 (.ok (.obj [("error", .null)])))
            version area service id).2 = .panic nilDereference
        ∧ (c.NowOnAir lib (World.answering 404 (.ok (.obj [("error", .null)])))
            version area service).2 = .panic nilDereference) := by
  have key : ∀ op ∈ [getNhkList, getNhkDescriptionList, getNhkNowOnAirList], ∀ u,
      (op lib (World.answering 404 (.ok (.obj [("error", .null)]))) u).2
        = .panic nilDereference := by
    intro op hop u
    rw [non_200_outcome lib (World.answering 404 (.ok (.obj [("error", .null)]))) u
      ⟨404, .ok ⟨.ok (.obj [("error", .null)])⟩⟩ ⟨.ok (.obj [("error", .null)])⟩ rfl rfl
      (by decide) op hop]
    simp only [apiError_null_envelope]
  constructor
  · intro op hop
    refine ⟨key op hop url, ?_⟩
    intro e h
    rw [key op hop url] at h
    cases h
  · intro c version area service genre date id
    exact ⟨key getNhkList (by simp) _, key getNhkList (by simp) _,
      key getNhkDescriptionList (by simp) _, key getNhkNowOnAirList (by simp) _⟩

end Gonhk

/-! ## Lemmas: which JSON values a type accepts -/

namespace Gonhk

/-- The store of the members of an object succeeds exactly when every step
does, provided the success of a step does not depend on the accumulated value. -/
theorem storeMembers_ok_iff (step : List (String × GoVal) → String → JSON →
      Except GoError (List (String × GoVal))) (Q : String × JSON → Bool)
    (ms : List (String × JSON))
    (h : ∀ acc k j, (k, j) ∈ ms → ((∃ acc', step acc k j = .ok acc') ↔ Q (k, j) = true)) :
    ∀ acc, (∃ r, storeMembers step acc ms = .ok r) ↔ ms.all Q = true := by
  induction ms with
  | nil =>
      intro acc
      simp [storeMembers]
  | cons p ms ih =>
      intro acc
      obtain ⟨k, j⟩ := p
      have hp := h acc k j (List.mem_cons_self _ _)
      have ih' := ih (fun a k' j' hm => h a k' j' (List.mem_cons_of_mem _ hm))
      simp only [storeMembers, List.all_cons, Bool.and_eq_true]
      cases hs : step acc k j with
      | error e =>
          have : ¬ Q (k, j) = true := fun hq => by
            obtain ⟨a, ha⟩ := hp.mpr hq
            rw [hs] at ha
            cases ha
          simp [this]
      | ok acc' =>
          have : Q (k, j) = true := hp.mp ⟨acc', hs⟩
          simp only [this, true_and]
          exact ih' acc'

/-- The store of the elements of an array succeeds exactly when the store of
every element does, provided that does not depend on the current element. -/
theorem storeElems_ok_iff (store : GoVal → JSON → Except GoError GoVal) (z : GoVal)
    (Q : JSON → Bool) (xs : List JSON)
    (h : ∀ c x, x ∈ xs → ((∃ v, store c x = .ok v) ↔ Q x = true)) :
    ∀ cur, (∃ vs, storeElems store z cur xs = .ok vs) ↔ xs.all Q = true := by
  induction xs with
  | nil =>
      intro cur
      cases cur <;> simp [storeElems]
  | cons x xs ih =>
      intro cur
      have ih' := ih (fun c y hm => h c y (List.mem_cons_of_mem _ hm))
      simp only [List.all_cons, Bool.and_eq_true]
      cases cur with
      | nil =>
          have hp := h z x (List.mem_cons_self _ _)
          simp only [storeElems]
          cases hs : store z x with
          | error e =>
              have : ¬ Q x = true := fun hq => by
                obtain ⟨a, ha⟩ := hp.mpr hq
                rw [hs] at ha
                cases ha
              simp [this]
          | ok v =>
              have : Q x = true := hp.mp ⟨v, hs⟩
              simp only [this, true_and]
              rw [← ih' []]
              cases storeElems store z [] xs <;> simp
      | cons c cs =>
          have hp := h c x (List.mem_cons_self _ _)
          simp only [storeElems]
          cases hs : store c x with
          | error e =>
              have : ¬ Q x = true := fun hq => by
                obtain ⟨a, ha⟩ := hp.mpr hq
                rw [hs] at ha
                cases ha
              simp [this]
          | ok v =>
              have : Q x = true := hp.mp ⟨v, hs⟩
              simp only [this, true_and]
              rw [← ih' cs]
              cases storeElems store z cs xs <;> simp

end Gonhk

namespace Gonhk

theorem iff_of_error {α β : Type} {x : Except GoError α} {P : Prop} {e : GoError}
    (he : x = .error e) (h : (∃ v, x = .ok v) ↔ P) (e' : GoError) :
    (∃ v : β, (Except.error e' : Except GoError β) = .ok v) ↔ P := by
  constructor
  · rintro ⟨_, hv⟩
    cases hv
  · intro hp
    obtain ⟨v, hv⟩ := h.mpr hp
    rw [he] at hv
    cases hv

theorem iff_of_ok {α β : Type} {x : Except GoError α} {P : Prop} {a : α}
    (ha : x = .ok a) (h : (∃ v, x = .ok v) ↔ P) (b : β) :
    (∃ v : β, (Except.ok b : Except GoError β) = .ok v) ↔ P :=
  ⟨fun _ => h.mp ⟨a, ha⟩, fun _ => ⟨b, rfl⟩⟩

theorem ok_iff_ptr (lib : Lib) (t : GoType)
    (ih : ∀ c j, (∃ v, unmarshal lib t c j = .ok v) ↔ fits lib t j = true)
    (cur : GoVal) (j : JSON) :
    (∃ v, unmarshal lib (.ptr t) cur j = .ok v) ↔ fits lib (.ptr t) j = true := by
  cases j with
  | null => simp [unmarshal, fits]
  | bool x =>
      simp only [unmarshal, fits]
      split
      · next e he => exact iff_of_error he (ih _ _) _
      · next v hv => exact iff_of_ok hv (ih _ _) _
  | num x =>
      simp only [unmarshal, fits]
      split
      · next e he => exact iff_of_error he (ih _ _) _
      · next v hv => exact iff_of_ok hv (ih _ _) _
  | str x =>
      simp only [unmarshal, fits]
      split
      · next e he => exact iff_of_error he (ih _ _) _
      · next v hv => exact iff_of_ok hv (ih _ _) _
  | arr x =>
      simp only [unmarshal, fits]
      split
      · next e he => exact iff_of_error he (ih _ _) _
      · next v hv => exact iff_of_ok hv (ih _ _) _
  | obj x =>
      simp only [unmarshal, fits]
      split
      · next e he => exact iff_of_error he (ih _ _) _
      · next v hv => exact iff_of_ok hv (ih _ _) _

theorem ok_iff_time (lib : Lib) (htime : lib.timeIgnoresReceiver) (cur : GoVal) (j : JSON) :
    (∃ v, unmarshal lib .time cur j = .ok v) ↔ fits lib .time j = true := by
  have hz : (∃ t, lib.timeUnmarshalJSON Time.zero j = .ok t) ↔ fits lib .time j = true := by
    simp only [fits]
    split
    · next t ht => exact ⟨fun _ => rfl, fun _ => ⟨t, ht⟩⟩
    · next e he =>
        constructor
        · rintro ⟨t, ht⟩
          rw [he] at ht
          cases ht
        · intro h
          cases h
  simp only [unmarshal]
  split
  · next e he => exact iff_of_error he ((htime _ j).trans hz) _
  · next t ht => exact iff_of_ok ht ((htime _ j).trans hz) _

theorem ok_iff_string (lib : Lib) (cur : GoVal) (j : JSON) :
    (∃ v, unmarshal lib .string cur j = .ok v) ↔ fits lib .string j = true := by
  cases j <;> simp [unmarshal, fits]

theorem ok_iff_int (lib : Lib) (cur : GoVal) (j : JSON) :
    (∃ v, unmarshal lib .int cur j = .ok v) ↔ fits lib .int j = true := by
  cases j with
  | num n =>
      cases n with
      | integer i =>
          by_cases hi : lib.fitsInt i = true
          · simp [unmarshal, fits, hi]
          · simp [unmarshal, fits, hi]
      | fractional lit => simp [unmarshal, fits]
  | null => simp [unmarshal, fits]
  | bool x => simp [unmarshal, fits]
  | str x => simp [unmarshal, fits]
  | arr x => simp [unmarshal, fits]
  | obj x => simp [unmarshal, fits]

theorem ok_iff_slice (lib : Lib) (t : GoType)
    (ih : ∀ c j, (∃ v, unmarshal lib t c j = .ok v) ↔ fits lib t j = true)
    (cur : GoVal) (j : JSON) :
    (∃ v, unmarshal lib (.slice t) cur j = .ok v) ↔ fits lib (.slice t) j = true := by
  cases j with
  | arr xs =>
      simp only [unmarshal, fits]
      split
      · next e he =>
          exact iff_of_error he
            (storeElems_ok_iff _ _ _ xs (fun c x _ => ih c x) _) _
      · next v hv =>
          exact iff_of_ok hv
            (storeElems_ok_iff _ _ _ xs (fun c x _ => ih c x) _) _
  | null => simp [unmarshal, fits]
  | bool x => simp [unmarshal, fits]
  | num x => simp [unmarshal, fits]
  | str x => simp [unmarshal, fits]
  | obj x => simp [unmarshal, fits]

theorem ok_iff_map (lib : Lib) (t : GoType)
    (ih : ∀ c j, (∃ v, unmarshal lib t c j = .ok v) ↔ fits lib t j = true)
    (cur : GoVal) (j : JSON) :
    (∃ v, unmarshal lib (.map t) cur j = .ok v) ↔ fits lib (.map t) j = true := by
  cases j with
  | obj ms =>
      have hstep : ∀ (acc : List (String × GoVal)) (k : String) (j : JSON), (k, j) ∈ ms →
          ((∃ acc', (match unmarshal lib t (zero t) j with
              | .error e => (.error e : Except GoError (List (String × GoVal)))
              | .ok x => .ok (mapSet acc k x)) = .ok acc') ↔ fits lib t j = true) := by
        intro acc k j _
        split
        · next e he => exact iff_of_error he (ih _ _) _
        · next v hv => exact iff_of_ok hv (ih _ _) _
      have h := storeMembers_ok_iff
        (fun acc k v =>
          match unmarshal lib t (zero t) v with
          | .error e => .error e
          | .ok x => .ok (mapSet acc k x))
        (fun p => fits lib t p.2) ms hstep
      simp only [unmarshal, fits]
      split
      · next e he => exact iff_of_error he (h _) _
      · next v hv => exact iff_of_ok hv (h _) _
  | null => simp [unmarshal, fits]
  | bool x => simp [unmarshal, fits]
  | num x => simp [unmarshal, fits]
  | str x => simp [unmarshal, fits]
  | arr x => simp [unmarshal, fits]

theorem ok_iff_struct (lib : Lib) (n : String) (fs : Fields)
    (ih : ∀ f c j, (∃ v, unmarshalField lib fs f c j = .ok v) ↔ fitsField lib fs f j = true)
    (cur : GoVal) (j : JSON) :
    (∃ v, unmarshal lib (.struct n fs) cur j = .ok v) ↔ fits lib (.struct n fs) j = true := by
  cases j with
  | obj ms =>
      have hstep : ∀ (acc : List (String × GoVal)) (k : String) (j : JSON), (k, j) ∈ ms →
          ((∃ acc', (match findField lib fs k with
              | none => (.ok acc : Except GoError (List (String × GoVal)))
              | some f => unmarshalField lib fs f acc j) = .ok acc')
            ↔ (match findField lib fs k with
              | none => true
              | some f => fitsField lib fs f j) = true) := by
        intro acc k j _
        cases findField lib fs k with
        | none => simp
        | some f => exact ih f acc j
      have h := storeMembers_ok_iff
        (fun acc k v =>
          match findField lib fs k with
          | none => .ok acc
          | some f => unmarshalField lib fs f acc v)
        (fun p =>
          match findField lib fs p.1 with
          | none => true
          | some f => fitsField lib fs f p.2) ms hstep
      simp only [unmarshal, fits]
      split
      · next e he => exact iff_of_error he (h _) _
      · next v hv => exact iff_of_ok hv (h _) _
  | null => simp [unmarshal, fits]
  | bool x => simp [unmarshal, fits]
  | num x => simp [unmarshal, fits]
  | str x => simp [unmarshal, fits]
  | arr x => simp [unmarshal, fits]

theorem ok_iff_field_cons (lib : Lib) (n tag : String) (t : GoType) (rest : Fields)
    (iht : ∀ c j, (∃ v, unmarshal lib t c j = .ok v) ↔ fits lib t j = true)
    (ihr : ∀ f c j, (∃ v, unmarshalField lib rest f c j = .ok v) ↔ fitsField lib rest f j = true)
    (f : String) (cur : List (String × GoVal)) (j : JSON) :
    (∃ v, unmarshalField lib (.cons n tag t rest) f cur j = .ok v)
      ↔ fitsField lib (.cons n tag t rest) f j = true := by
  by_cases hn : n = f
  · simp only [unmarshalField, fitsField, hn, if_true]
    split
    · next e he => exact iff_of_error he (iht _ _) _
    · next v hv => exact iff_of_ok hv (iht _ _) _
  · simp only [unmarshalField, fitsField, hn, if_false]
    exact ihr f cur j

mutual
/-- The store of a JSON value into a Go value succeeds exactly when the value
fits the type, whatever the current value is, given that
`time.Time.UnmarshalJSON` does not read the value it is called on. -/
theorem unmarshal_ok_iff (lib : Lib) (htime : lib.timeIgnoresReceiver) :
    ∀ (t : GoType) (cur : GoVal) (j : JSON),
      (∃ v, unmarshal lib t cur j = .ok v) ↔ fits lib t j = true
  | .ptr t, cur, j => ok_iff_ptr lib t (unmarshal_ok_iff lib htime t) cur j
  | .time, cur, j => ok_iff_time lib htime cur j
  | .string, cur, j => ok_iff_string lib cur j
  | .int, cur, j => ok_iff_int lib cur j
  | .slice t, cur, j => ok_iff_slice lib t (unmarshal_ok_iff lib htime t) cur j
  | .map t, cur, j => ok_iff_map lib t (unmarshal_ok_iff lib htime t) cur j
  | .struct n fs, cur, j => ok_iff_struct lib n fs (unmarshalField_ok_iff lib htime fs) cur j
/-- The store into a field succeeds exactly when the value fits the field. -/
theorem unmarshalField_ok_iff (lib : Lib) (htime : lib.timeIgnoresReceiver) :
    ∀ (fs : Fields) (f : String) (cur : List (String × GoVal)) (j : JSON),
      (∃ v, unmarshalField lib fs f cur j = .ok v) ↔ fitsField lib fs f j = true
  | .nil, f, cur, j => by simp [unmarshalField, fitsField]
  | .cons n tag t rest, f, cur, j =>
      ok_iff_field_cons lib n tag t rest (unmarshal_ok_iff lib htime t)
        (unmarshalField_ok_iff lib htime rest) f cur j
end

end Gonhk

/-! ## C8: responses with status 200 -/

namespace Gonhk

/-- The cases of C8 for one caller of `decoder`, given what it returns with
status 200. -/
theorem status_200_cases (lib : Lib) (n : String) (fs : Fields) (b : Bytes)
    (out : Run (GoVal × Option GoError))
    (hout : out = (match (NewDecoder b).Decode lib (.ptr (.struct n fs)) .nil with
          | .error err => .ret (.nil, some err)
          | .ok result => .ret (result, none))) :
    (∀ e, b.scanned = .error e → out = .ret (.nil, some (GoError.scan e)))
    ∧ (∀ j, b.scanned = .ok j → j ≠ .null → (∀ ms, j ≠ .obj ms) →
        out = .ret (.nil, some (typeError j (.struct n fs))))
    ∧ (∀ ms, b.scanned = .ok (.obj ms) → lib.timeIgnoresReceiver →
        fits lib (.struct n fs) (.obj ms) = true →
        ∃ vs, out = .ret (.ptr (.struct vs), none))
    ∧ (∀ ms, b.scanned = .ok (.obj ms) → lib.timeIgnoresReceiver →
        fits lib (.struct n fs) (.obj ms) = false →
        ∃ e, out = .ret (.nil, some e))
    ∧ (∀ ms, b.scanned = .ok (.obj ms) →
        (∀ p ∈ ms, selectsSome lib (.struct n fs) p.1 = false) →
        out = .ret (.ptr (zero (.struct n fs)), none)) := by
  subst hout
  have hfit : ∀ ms, lib.timeIgnoresReceiver →
      ((∃ v, unmarshal lib (.ptr (.struct n fs)) .nil (.obj ms) = .ok v)
        ↔ fits lib (.struct n fs) (.obj ms) = true) := by
    intro ms htime
    have h := unmarshal_ok_iff lib htime (.ptr (.struct n fs)) .nil (.obj ms)
    have hp : fits lib (.ptr (.struct n fs)) (.obj ms) = fits lib (.struct n fs) (.obj ms) := by
      rw [fits]
      intro hnull
      cases hnull
    rw [hp] at h
    exact h
  refine ⟨?_, ?_, ?_, ?_, ?_⟩
  · intro e he
    simp [Decoder.Decode, NewDecoder, he]
  · intro j he hnull hobj
    cases j with
    | null => exact absurd rfl hnull
    | obj ms => exact absurd rfl (hobj ms)
    | bool x => simp only [Decoder.Decode, NewDecoder, he, unmarshal_ptr_struct]
    | num x => simp only [Decoder.Decode, NewDecoder, he, unmarshal_ptr_struct]
    | str x => simp only [Decoder.Decode, NewDecoder, he, unmarshal_ptr_struct]
    | arr xs => simp only [Decoder.Decode, NewDecoder, he, unmarshal_ptr_struct]
  · intro ms he htime hf
    obtain ⟨v, hv⟩ := (hfit ms htime).mpr hf
    have hv' := hv
    rw [unmarshal_ptr_struct] at hv'
    simp only [Decoder.Decode, NewDecoder, he, hv]
    cases hr : storeMembers (fun acc k v =>
        match findField lib fs k with
        | none => .ok acc
        | some f => unmarshalField lib fs f acc v) (zeroFields fs) ms with
    | error e => simp [hr] at hv'
    | ok vs =>
        simp only [hr, Except.ok.injEq] at hv'
        exact ⟨vs, by rw [← hv']⟩
  · intro ms he htime hf
    simp only [Decoder.Decode, NewDecoder, he]
    cases hd : unmarshal lib (.ptr (.struct n fs)) .nil (.obj ms) with
    | error e => exact ⟨e, rfl⟩
    | ok v =>
        have := (hfit ms htime).mp ⟨v, hd⟩
        rw [hf] at this
        cases this
  · intro ms he hskip
    have hs : ∀ p ∈ ms, findField lib fs p.1 = none := by
      intro p hp
      have := hskip p hp
      simpa [selectsSome, GoType.fields] using this
    simp only [Decoder.Decode, NewDecoder, he, unmarshal_ptr_struct,
      storeMembers_skip lib fs ms hs, zero]

/-- C8 (as amended). For each of getNhkList, getNhkDescriptionList and
getNhkNowOnAirList and every response with status 200 whose body was read:
a body on which the scanner fails yields that scan error and no result; a body
whose first value is an array, a string, a number or a boolean yields the type
error of the decoder and no result; a body that is an object yields a non-nil
result and no error when it fits the target type (every member that selects a
field fits that field, see `fits`), and an error and no result when it does not
fit (given that `time.Time.UnmarshalJSON` does not read the value it is called
on); in particular an object none of whose keys selects a field yields the
pointer to the zero value of the target struct and no error. -/
theorem C8_status_200_result_or_error (lib : Lib) (w : World) (url : String) (res : Response)
    (b : Bytes) (h : w.respond url = .ok res) (hb : res.Body = .ok b)
    (hs : res.StatusCode = 200) :
    ∀ op ∈ [(getNhkList, NhkList), (getNhkDescriptionList, NhkDescriptionList),
        (getNhkNowOnAirList, NhkNowOnAirList)],
      (∀ e, b.scanned = .error e → (op.1 lib w url).2 = .ret (.nil, some (GoError.scan e)))
      ∧ (∀ j, b.scanned = .ok j → j ≠ .null → (∀ ms, j ≠ .obj ms) →
          (op.1 lib w url).2 = .ret (.nil, some (typeError j op.2)))
      ∧ (∀ ms, b.scanned = .ok (.obj ms) → lib.timeIgnoresReceiver →
          fits lib op.2 (.obj ms) = true →
          ∃ vs, (op.1 lib w url).2 = .ret (.ptr (.struct vs), none))
      ∧ (∀ ms, b.scanned = .ok (.obj ms) → lib.timeIgnoresReceiver →
          fits lib op.2 (.obj ms) = false →
          ∃ e, (op.1 lib w url).2 = .ret (.nil, some e))
      ∧ (∀ ms, b.scanned = .ok (.obj ms) →
          (∀ p ∈ ms, selectsSome lib op.2 p.1 = false) →
          (op.1 lib w url).2 = .ret (.ptr (zero op.2), none)) := by
  intro op hop
  obtain ⟨h1, h2, h3⟩ := getNhk_200 lib w url res b h hb hs
  simp only [List.mem_cons, List.mem_singleton, List.not_mem_nil, or_false] at hop
  rcases hop with rfl | rfl | rfl
  · exact status_200_cases lib _ _ b _ h1
  · exact status_200_cases lib _ _ b _ h2
  · exact status_200_cases lib _ _ b _ h3

/-- The sample library does not read the receiver of `UnmarshalJSON`. -/
theorem sample_timeIgnoresReceiver : Lib.sample.timeIgnoresReceiver := by
  intro c j
  cases j <;> simp [Lib.sample]

/-- C8 (as amended), at status 200 and the body
`{"list":{"g1":[{"id":"1","start_time":"2014-08-01T04:30:00+09:00","genres":["0000"]}]}}`,
which fits NhkList: getNhkList returns a non-nil result and no error. -/
theorem C8_status_200_witness :
    ∃ vs, (getNhkList Lib.sample (World.answering 200 (.ok (.obj [("list", .obj [("g1",
        .arr [.obj [("id", .str "1"), ("start_time", .str "2014-08-01T04:30:00+09:00"),
          ("genres", .arr [.str "0000"])]])])]))) "u").2 = .ret (.ptr (.struct vs), none) :=
  (C8_status_200_result_or_error Lib.sample
    (World.answering 200 (.ok (.obj [("list", .obj [("g1",
        .arr [.obj [("id", .str "1"), ("start_time", .str "2014-08-01T04:30:00+09:00"),
          ("genres", .arr [.str "0000"])]])])]))) "u"
    ⟨200, .ok ⟨.ok (.obj [("list", .obj [("g1",
        .arr [.obj [("id", .str "1"), ("start_time", .str "2014-08-01T04:30:00+09:00"),
          ("genres", .arr [.str "0000"])]])])])⟩⟩
    ⟨.ok (.obj [("list", .obj [("g1",
        .arr [.obj [("id", .str "1"), ("start_time", .str "2014-08-01T04:30:00+09:00"),
          ("genres", .arr [.str "0000"])]])])])⟩ rfl rfl rfl
    (getNhkList, NhkList) (by simp)).2.2.1 _ rfl sample_timeIgnoresReceiver (by decide)

/-- C8 as stated fails twice.  With status 200 the body null yields neither a
result nor an error; and the body `{"list":5}`, an object, yields a decode error
and no result. -/
theorem C8_counterexample :
    (getNhkList Lib.sample (World.answering 200 (.ok .null)) "u").2 = .ret (.nil, none)
    ∧ (getNhkList Lib.sample
        (World.answering 200 (.ok (.obj [("list", .num (.integer 5))]))) "u").2
      = .ret (.nil, some (GoError.unmarshalType "number" "map[string][]*gonhk.NhkProgram")) := by
  constructor <;> rfl

end Gonhk
